import Mathlib

/-!
Verification of the GOKU agent turn-orchestration loop (src/server/agent.py).

The development shallowly embeds the orchestration core of `GokuAgent.run_agent`:
the streaming response decoder, the defensive tool-argument parser, the
permission/trust gate, the stall/loop detector, the task plan manager and the
per-turn decision state machine.  External collaborators (the model router, the
MCP tool executor `mcp_manager.call_tool` / `is_sensitive`, the vector memory
and Python's `json` module) are modelled as explicit oracle parameters, exactly
at the interface the orchestrator consumes.  Machine-level details that the
orchestrator observes only through equality of strings (such as the md5 hex
digest used by the loop detector) are modelled by injective encodings.
-/

namespace GokuSpec

/-- A JSON-like value: the Python objects that `json.loads` can produce and
that flow through tool arguments, task lists and tool results. -/
inductive JVal where
  | jnull : JVal
  | jbool : Bool → JVal
  | jnum : Int → JVal
  | jstr : String → JVal
  | jarr : List JVal → JVal
  | jobj : List (String × JVal) → JVal
deriving Inhabited

/-- Is the value a Python dict? -/
def JVal.isObj : JVal → Bool
  | .jobj _ => true
  | _ => false

/-- Python `d.get(k, default)` on a dict value (first binding wins; the
objects we build never carry duplicate keys, mirroring real dicts). -/
def dget (v : JVal) (k : String) (d : JVal) : JVal :=
  match v with
  | .jobj kvs => (List.lookup k kvs).getD d
  | _ => d

/-- Python dict assignment `d[k] = v`: replaces the existing binding in place
(keeping its position) or appends a new one. -/
def dictSet : List (String × JVal) → String → JVal → List (String × JVal)
  | [], k, v => [(k, v)]
  | (k1, v1) :: rest, k, v =>
      if k1 = k then (k, v) :: rest else (k1, v1) :: dictSet rest k v

/-- Python `isinstance(x, int)` admits `bool` (bool is a subclass of int);
returns the integer value used by comparisons and indexing. -/
def toPyInt? : JVal → Option Int
  | .jnum n => some n
  | .jbool b => some (if b then 1 else 0)
  | _ => none

/-! ### Python `json.dumps` (default separators, `ensure_ascii=True`) -/

/-- Lowercase hex digit. -/
def hexDigit (n : Nat) : Char :=
  if n < 10 then Char.ofNat (48 + n) else Char.ofNat (87 + n)

/-- Four lowercase hex digits, as in `\uXXXX`. -/
def hex4 (n : Nat) : List Char :=
  [hexDigit (n / 4096 % 16), hexDigit (n / 256 % 16), hexDigit (n / 16 % 16), hexDigit (n % 16)]

/-- `\uXXXX` escape; code points above the BMP become a UTF-16 surrogate pair,
as CPython's `json` emits with `ensure_ascii=True`. -/
def uEscape (n : Nat) : List Char :=
  if n < 65536 then '\\' :: 'u' :: hex4 n
  else
    let m := n - 65536
    ('\\' :: 'u' :: hex4 (55296 + m / 1024)) ++ ('\\' :: 'u' :: hex4 (56320 + m % 1024))

/-- Escape one character of a JSON string literal the way CPython's
`json.dumps` does by default: `"` and `\` get backslash escapes, the common
control characters get their short forms, every other character outside
printable ASCII (below 0x20 or above 0x7e) becomes `\uXXXX`. -/
def jsonEscapeChar (c : Char) : List Char :=
  if c = '"' then ['\\', '"']
  else if c = '\\' then ['\\', '\\']
  else if c = '\n' then ['\\', 'n']
  else if c = '\t' then ['\\', 't']
  else if c = '\r' then ['\\', 'r']
  else if c = Char.ofNat 8 then ['\\', 'b']
  else if c = Char.ofNat 12 then ['\\', 'f']
  else if c.toNat < 32 ∨ 126 < c.toNat then uEscape c.toNat
  else [c]

/-- A JSON string literal, quotes included. -/
def jsonQuote (s : String) : String :=
  String.mk ('"' :: (s.data.flatMap jsonEscapeChar) ++ ['"'])

/-- Code-point lexicographic `<=` on strings, as Python string comparison. -/
def lexLe : List Char → List Char → Bool
  | [], _ => true
  | _ :: _, [] => false
  | a :: as, b :: bs => if a = b then lexLe as bs else decide (a.toNat < b.toNat)

/-- Stable insertion into a key-sorted association list. -/
def insSortedKV (kv : String × JVal) : List (String × JVal) → List (String × JVal)
  | [] => [kv]
  | h :: t => if lexLe h.1.data kv.1.data then h :: insSortedKV kv t else kv :: h :: t

/-- Stable sort by key, as `json.dumps(..., sort_keys=True)` sorts dict items. -/
def sortByKey (l : List (String × JVal)) : List (String × JVal) :=
  l.foldl (fun acc kv => insSortedKV kv acc) []

/-- Left brace as text. -/
def braceL : String := String.singleton (Char.ofNat 123)

/-- Right brace as text. -/
def braceR : String := String.singleton (Char.ofNat 125)

/-- Join with a separator. -/
def joinSep (sep : String) : List String → String
  | [] => ""
  | [s] => s
  | s :: rest => s ++ sep ++ joinSep sep rest

/-- CPython bounds recursion (default `sys.getrecursionlimit()` is 1000);
`json.dumps` and `repr` raise `RecursionError` past it.  The fuelled
traversals below use this limit, so on any value the Python code can actually
serialize they never hit the fuel-exhaustion fallback. -/
def pyRecursionLimit : Nat := 1000

/-- Fuelled body of `json.dumps`; one unit of fuel per nesting level. -/
def dumpsF : Nat → Bool → JVal → String
  | 0, _, _ => ""
  | Nat.succ fuel, sk, v =>
    match v with
    | .jnull => "null"
    | .jbool true => "true"
    | .jbool false => "false"
    | .jnum n => toString n
    | .jstr s => jsonQuote s
    | .jarr xs => "[" ++ joinSep ", " (xs.map (dumpsF fuel sk)) ++ "]"
    | .jobj kvs =>
        let kvs2 := if sk then sortByKey kvs else kvs
        braceL ++ joinSep ", " (kvs2.map (fun kv => jsonQuote kv.1 ++ ": " ++ dumpsF fuel sk kv.2)) ++ braceR

/-- Python `json.dumps(v)` (with `sort_keys` when `sk` is true), default
separators `", "` and `": "`. -/
def jsonDumps (sk : Bool) (v : JVal) : String :=
  dumpsF pyRecursionLimit sk v

/-! ### Python `repr` / f-string rendering (for `f"Tasks {action}ed"` etc.) -/

/-- The quote character CPython `repr` picks for a string: single quotes,
switching to double quotes when the string contains a single quote but no
double quote. -/
def reprQuote (s : String) : Char :=
  if '\x27' ∈ s.data ∧ ¬ '"' ∈ s.data then '"' else '\x27'

/-- Two lowercase hex digits, as in `\xNN`. -/
def hex2 (n : Nat) : List Char :=
  [hexDigit (n / 16 % 16), hexDigit (n % 16)]

/-- Escape one character of a `repr` string literal quoted with `q`, as
CPython does: the backslash and the chosen quote get backslash escapes,
`\n`/`\r`/`\t` their short forms, and the remaining non-printable
characters of the Latin-1 range (ASCII below 0x20, DEL through U+00A0)
become `\xNN`.  Characters from U+00A1 up are kept literal; CPython escapes
the rare non-printable ones among them via the Unicode database, outside
this model's Latin-1-exact scope. -/
def reprEscapeChar (q : Char) (c : Char) : List Char :=
  if c = '\\' then ['\\', '\\']
  else if c = q then ['\\', q]
  else if c = '\n' then ['\\', 'n']
  else if c = '\r' then ['\\', 'r']
  else if c = '\t' then ['\\', 't']
  else if c.toNat < 32 ∨ (126 < c.toNat ∧ c.toNat ≤ 160) then
    '\\' :: 'x' :: hex2 c.toNat
  else [c]

/-- CPython `repr` of a string, quotes included. -/
def pyReprStr (s : String) : String :=
  String.mk (reprQuote s :: (s.data.flatMap (reprEscapeChar (reprQuote s))) ++ [reprQuote s])

/-- Fuelled model of Python `repr` for the values that can reach an f-string
in `_format_plan` / the result message: scalars exactly, strings with
CPython's quote selection and escaping, containers with `", "` / `": "`
separators and `repr`-rendered elements and keys. -/
def pyReprF : Nat → JVal → String
  | 0, _ => ""
  | Nat.succ fuel, v =>
    match v with
    | .jnull => "None"
    | .jbool true => "True"
    | .jbool false => "False"
    | .jnum n => toString n
    | .jstr s => pyReprStr s
    | .jarr xs => "[" ++ joinSep ", " (xs.map (pyReprF fuel)) ++ "]"
    | .jobj kvs =>
        braceL ++ joinSep ", " (kvs.map (fun kv => pyReprStr kv.1 ++ ": " ++ pyReprF fuel kv.2)) ++ braceR

/-- Python f-string interpolation `f"{v}"` (`str(v)`). -/
def pyFStr (v : JVal) : String :=
  match v with
  | .jstr s => s
  | .jnull => "None"
  | .jbool true => "True"
  | .jbool false => "False"
  | .jnum n => toString n
  | other => pyReprF pyRecursionLimit other

/-! ### The defensive tool-argument parser (agent.py lines 562-573)

`json.loads` is external (Python stdlib); it is modelled as an oracle
`loads : String → Option JVal`, `none` meaning the call raised. -/

/-- The value held by `tool_args` after the robust-parsing block:

    try:
        tool_args = json.loads(raw_args) if isinstance(raw_args, str) else raw_args
        if isinstance(tool_args, str):
            tool_args = json.loads(tool_args)
        if not isinstance(tool_args, dict):
            tool_args = {}
    except Exception:
        tool_args = {}
-/
def parseArgsV (loads : String → Option JVal) (raw : JVal) : JVal :=
  match raw with
  | .jstr s =>
    match loads s with
    | none => .jobj []
    | some v =>
      match v with
      | .jstr s2 =>
        match loads s2 with
        | none => .jobj []
        | some v2 => match v2 with | .jobj kvs => .jobj kvs | _ => .jobj []
      | .jobj kvs => .jobj kvs
      | _ => .jobj []
  | .jobj kvs => .jobj kvs
  | _ => .jobj []

/-- `get_tool_action` (agent.py lines 542-552): a separate, slightly different
defensive parse that returns `data.get("action")`; any exception (including
`.get` on a non-dict) yields `None`, modelled as `none`. -/
def getToolAction (loads : String → Option JVal) (raw : JVal) : Option JVal :=
  match raw with
  | .jstr s =>
    match loads s with
    | none => none
    | some v =>
      match v with
      | .jstr s2 =>
        match loads s2 with
        | none => none
        | some v2 => match v2 with | .jobj kvs => some ((List.lookup "action" kvs).getD .jnull) | _ => none
      | .jobj kvs => some ((List.lookup "action" kvs).getD .jnull)
      | _ => none
  | .jobj kvs => some ((List.lookup "action" kvs).getD .jnull)
  | _ => none

/-- Is the (Python) value of `get_tool_action` equal to the string `"add"`? -/
def isAddVal : Option JVal → Bool
  | some (.jstr s) => s = "add"
  | _ => false


/-! ### Character and string helpers shared by the decoder and the gate -/

/-- Python `str.strip()` whitespace set (the ASCII part; the conversational
strings handled here are ASCII-spaced). -/
def isPyWs (c : Char) : Bool :=
  c = ' ' ∨ c = '\t' ∨ c = '\n' ∨ c = '\r' ∨ c = Char.ofNat 11 ∨ c = Char.ofNat 12

/-- Python `str.strip()`: drop leading and trailing whitespace. -/
def pyStrip (l : List Char) : List Char :=
  ((l.dropWhile isPyWs).reverse.dropWhile isPyWs).reverse

/-- `str.strip()` on `String`. -/
def pyStripStr (s : String) : String :=
  String.mk (pyStrip s.data)

/-- ASCII `str.lower()` (the approval keywords it is compared against are
ASCII). -/
def asciiLower (c : Char) : Char :=
  if 'A' ≤ c ∧ c ≤ 'Z' then Char.ofNat (c.toNat + 32) else c

/-- Does `s` start with `pat`? -/
def subAt : List Char → List Char → Bool
  | [], _ => true
  | _ :: _, [] => false
  | p :: ps, c :: cs => if p = c then subAt ps cs else false

/-- Python `pat in s`: `pat` occurs as a contiguous substring of `s`. -/
def hasSub (pat : List Char) : List Char → Bool
  | [] => subAt pat []
  | c :: rest => if subAt pat (c :: rest) then true else hasSub pat rest

/-- Split at the first occurrence of `pat`: `some (before, after)` with
`s = before ++ pat ++ after`, scanning left to right. -/
def splitFirst (pat : List Char) : List Char → Option (List Char × List Char)
  | [] => if subAt pat [] then some ([], []) else none
  | c :: rest =>
    if subAt pat (c :: rest) then some ([], (c :: rest).drop pat.length)
    else match splitFirst pat rest with
         | some (a, b) => some (c :: a, b)
         | none => none

/-! ### The streaming thought-tag scanner (agent.py lines 324-366 and 429-432)

The per-fragment scan re-runs Python's

    re.finditer(r'<(thought|think)>(.*?)(?:</\1>|$)', full_content, re.DOTALL)

over the whole accumulated buffer, and the end-of-turn cleaner runs

    re.sub(r'<(thought|think)>.*?(</\1>|$)', '', full_content, flags=re.DOTALL).strip()

Both regexes are modelled operationally.  The alternation tries `thought`
before `think` (the two openers are mutually exclusive on any input); the lazy
interior ends at the earliest same-name close tag, else at `$`.  Without
`re.MULTILINE`, `$` matches at end of string, or just before a final newline —
hence the unterminated-tag case keeps a final `'\n'` when present. -/

inductive Tag where
  | thought : Tag
  | think : Tag
deriving DecidableEq, Inhabited

/-- The literal opening tag. -/
def openTag : Tag → List Char
  | .thought => "<thought>".data
  | .think => "<think>".data

/-- The literal closing tag. -/
def closeTag : Tag → List Char
  | .thought => "</thought>".data
  | .think => "</think>".data

/-- Try to match an opening tag at the head of the buffer; returns the tag and
the remainder after the opener. -/
def openAt : List Char → Option (Tag × List Char)
  | '<' :: 't' :: 'h' :: 'o' :: 'u' :: 'g' :: 'h' :: 't' :: '>' :: rest => some (.thought, rest)
  | '<' :: 't' :: 'h' :: 'i' :: 'n' :: 'k' :: '>' :: rest => some (.think, rest)
  | _ => none

/-- Does the buffer end in a newline?  (`$` can match just before it.) -/
def endsNL (l : List Char) : Bool :=
  match l.getLast? with
  | some c => c = '\n'
  | none => false

/-- Fuelled single pass of
`re.sub(r'<(thought|think)>.*?(</\1>|$)', '', s, flags=re.DOTALL)`:
a match consumes from an opener to the earliest same-name closer (inclusive),
or — with no closer — to `$`, which leaves at most a final newline behind.
The fuel strictly exceeds the number of characters still to scan. -/
def dropThF : Nat → List Char → List Char
  | 0, s => s
  | Nat.succ fuel, s =>
    match openAt s with
    | some (t, after) =>
      match splitFirst (closeTag t) after with
      | some (_, rest) => dropThF fuel rest
      | none => if endsNL after then ['\n'] else []
    | none =>
      match s with
      | [] => []
      | c :: rest => c :: dropThF fuel rest

/-- The end-of-turn tag-removal pass (before `.strip()`). -/
def dropTh (s : List Char) : List Char :=
  dropThF (s.length + 1) s

/-- `clean_content` (agent.py line 432): strip all thought tags, then
`.strip()`. -/
def cleanContent (s : String) : String :=
  pyStripStr (String.mk (dropTh s.data))

/-- Fuelled model of the `finditer` pass: the `group(2)` interiors of all
matches of `<(thought|think)>(.*?)(?:</\1>|$)` in order.  An unterminated
final tag matches up to `$` (excluding a final newline when present). -/
def thoughtMatchesF : Nat → List Char → List (List Char)
  | 0, _ => []
  | Nat.succ fuel, s =>
    match openAt s with
    | some (t, after) =>
      match splitFirst (closeTag t) after with
      | some (interior, rest) => interior :: thoughtMatchesF fuel rest
      | none => if endsNL after then [after.dropLast] else [after]
    | none =>
      match s with
      | [] => []
      | _ :: rest => thoughtMatchesF fuel rest

/-- All `group(2)` interiors of the thought regex over the buffer. -/
def thoughtMatches (s : List Char) : List (List Char) :=
  thoughtMatchesF (s.length + 1) s

/-- Try to match the scrubber's tag part `</?(thought|think)>?` (IGNORECASE)
at the head of the buffer. -/
def scrubTagAt (s : List Char) : Bool :=
  match s.map asciiLower with
  | '<' :: rest =>
    let rest2 := match rest with | '/' :: r => r | r => r
    subAt "thought".data rest2 ∨ subAt "think".data rest2
  | _ => false

/-- Can `.*$` (no DOTALL) succeed from here?  Only if the remaining text has
no interior newline: either newline-free, or exactly one final newline. -/
def scrubTailOk (rest : List Char) : Bool :=
  ¬ ('\n' ∈ rest) ∨ (endsNL rest ∧ ¬ ('\n' ∈ rest.dropLast))

/-- Fuelled single pass of
`re.sub(r'</?(thought|think)>?.*$', '', raw, flags=re.IGNORECASE)`:
deletes from the first position where the tag part matches and the `.*$` tail
can succeed, keeping a final newline when `$` matched just before it. -/
def scrubF : Nat → List Char → List Char
  | 0, s => s
  | Nat.succ fuel, s =>
    match s with
    | [] => []
    | c :: rest =>
      if scrubTagAt (c :: rest) ∧ scrubTailOk (c :: rest) then
        if endsNL (c :: rest) then ['\n'] else []
      else c :: scrubF fuel rest

/-- The SCRUBBER of agent.py line 352 (`re.sub(...)` then `.strip()`). -/
def scrubThought (raw : List Char) : List Char :=
  pyStrip (scrubF (raw.length + 1) raw)

/-! ### The streaming decoder state (agent.py lines 318-366) -/

/-- Decoder state for one turn: the accumulated `full_content` and the
running `self._current_thought` buffer. -/
structure DecState where
  full : List Char
  thought : List Char
deriving DecidableEq

/-- Process one content fragment (the `if delta.content:` arm, lines
334-366): extend `full_content`, re-scan the whole buffer, and update the
thought only when the last match scrubs to something non-empty. -/
def processFragment (st : DecState) (chunk : List Char) : DecState :=
  let full := st.full ++ chunk
  match (thoughtMatches full).getLast? with
  | none => { full := full, thought := st.thought }
  | some raw =>
    let scr := scrubThought raw
    { full := full, thought := if scr = [] then st.thought else scr }

/-- Run the streaming decoder over a sequence of content fragments, starting
from the per-query reset state (`full_content = ""`, `_current_thought = ""`). -/
def decodeFragments (frags : List (List Char)) : DecState :=
  frags.foldl processFragment { full := [], thought := [] }

/-- Concatenation of all fragments. -/
def concatFrags (frags : List (List Char)) : List Char :=
  frags.foldl (fun a c => a ++ c) []


/-! ### Streaming tool-call accumulator (agent.py lines 368-385 and 392-407) -/

/-- One streamed tool-call fragment (`tc_chunk`): a stream index plus
optional pieces of id, function name and arguments text.  `none` stands for
a missing/`None` field; Python truthiness also treats `""` as absent. -/
structure TCFrag where
  index : Nat
  id : Option String
  name : Option String
  args : Option String

/-- Python truthiness of an optional string (`if tc_chunk.id:`). -/
def truthy : Option String → Bool
  | some s => s ≠ ""
  | none => false

/-- The per-index accumulator entry
(`{"id": ..., "function": {"name": ..., "arguments": ...}}`). -/
structure TCEntry where
  id : Option String
  name : String
  args : String
deriving DecidableEq

/-- Update an entry with one fragment's pieces (lines 380-385): every truthy
id overwrites, name and arguments pieces are concatenated. -/
def applyFrag (e : TCEntry) (f : TCFrag) : TCEntry :=
  { id := if truthy f.id then f.id else e.id,
    name := if truthy f.name then e.name ++ f.name.getD "" else e.name,
    args := if truthy f.args then e.args ++ f.args.getD "" else e.args }

/-- The dict `tool_calls_accumulator` as an association list in key-insertion
order (Python dicts preserve insertion order). -/
def AccState := List (Nat × TCEntry)

/-- Set the entry at a present key. -/
def accUpdate (k : Nat) (f : TCFrag) : List (Nat × TCEntry) → List (Nat × TCEntry)
  | [] => []
  | (k1, e) :: rest => if k1 = k then (k1, applyFrag e f) :: rest else (k1, e) :: accUpdate k f rest

/-- Process one fragment (lines 370-385): create the entry on first sight of
the index (id initialised from the chunk's raw id, empty name/arguments),
then apply the chunk's pieces. -/
def accStep (acc : List (Nat × TCEntry)) (f : TCFrag) : List (Nat × TCEntry) :=
  let acc1 := if (acc.lookup f.index).isSome then acc
              else acc ++ [(f.index, { id := f.id, name := "", args := "" })]
  accUpdate f.index f acc1

/-- Insertion sort for the `sorted(...)` of the index keys. -/
def insNat (n : Nat) : List Nat → List Nat
  | [] => [n]
  | h :: t => if h ≤ n then h :: insNat n t else n :: h :: t

/-- `sorted(keys)`. -/
def sortNats (l : List Nat) : List Nat :=
  l.foldl (fun acc n => insNat n acc) []

/-- End-of-stream reconstruction (lines 392-407): sort the accumulator's keys
and list the entries in index order. -/
def accFinalize (acc : List (Nat × TCEntry)) : List (Nat × TCEntry) :=
  (sortNats (acc.map Prod.fst)).filterMap (fun i => (acc.lookup i).map (fun e => (i, e)))

/-- The whole accumulation pass over a fragment stream. -/
def accumulate (frags : List TCFrag) : List (Nat × TCEntry) :=
  accFinalize (frags.foldl accStep [])

/-- Indices in order of first appearance (the dict's key-insertion order). -/
def firstOccIdxs (frags : List TCFrag) : List Nat :=
  frags.foldl (fun acc f => if f.index ∈ acc then acc else acc ++ [f.index]) []

/-- Specification-level entry for one index: fold the fragments with that
index in arrival order — the id starts as the first fragment's raw id and is
overwritten by each truthy id (so the last non-empty id wins), name and
arguments pieces concatenate. -/
def specEntry (fs : List TCFrag) : TCEntry :=
  fs.foldl applyFrag
    { id := match fs with | [] => none | f :: _ => f.id, name := "", args := "" }

/-- Specification-level accumulator: per-index gather, listed in sorted index
order. -/
def specAccumulate (frags : List TCFrag) : List (Nat × TCEntry) :=
  (sortNats (firstOccIdxs frags)).map
    (fun i => (i, specEntry (frags.filter (fun f => f.index = i))))

/-- The frozen claim's id rule ("the first non-empty id seen"), for the
counterexample. -/
def firstTruthyId (fs : List TCFrag) : Option String :=
  match fs.find? (fun f => truthy f.id) with
  | some f => f.id
  | none => match fs with | [] => none | f :: _ => f.id

/-! ### Stall/loop detector (agent.py lines 175-194, resets at 204-212) -/

/-- `_detect_loop` state: `_system_instruction_count`, `_last_response_hash`
and `_loop_detected`.  The md5 hex digest of the fingerprint pre-image
`content + str(len(tool_calls))` is modelled by the pre-image itself (md5 is
injective on the inputs of interest; only equality of digests is ever
observed). -/
structure LoopState where
  count : Nat
  lastHash : Option String
  loopDetected : Bool
deriving DecidableEq

/-- The fingerprint pre-image `content + str(len(tool_calls) if tool_calls else 0)`. -/
def fingerprintStr (content : String) (nTools : Nat) : String :=
  content ++ toString nTools

/-- `_detect_loop(content, tool_calls)`: equal consecutive fingerprints bump
the counter, a change resets it and stores the new fingerprint; counter ≥ 2
declares a loop. -/
def detectLoop (st : LoopState) (content : String) (nTools : Nat) : LoopState × Bool :=
  let h := fingerprintStr content nTools
  let st1 := if some h = st.lastHash then { st with count := st.count + 1 }
             else { st with count := 0, lastHash := some h }
  if 2 ≤ st1.count then ({ st1 with loopDetected := true }, true)
  else (st1, false)

/-- The per-query reset at the top of `run_agent` (lines 211-212): the counter
and the flag are reset; `_last_response_hash` is left untouched. -/
def loopResetPerQuery (st : LoopState) : LoopState :=
  { st with count := 0, loopDetected := false }

/-! ### Task plan manager (agent.py lines 148-169 and 575-586) -/

/-- Python `list.extend(x)`: extend by any iterable; iterating a string gives
its characters (as one-character strings), a dict gives its keys; `None`,
numbers and booleans raise `TypeError` (raised before anything is appended). -/
def pyExtendIter (tasks : List JVal) (v : JVal) : Except String (List JVal) :=
  match v with
  | .jarr xs => .ok (tasks ++ xs)
  | .jstr s => .ok (tasks ++ s.data.map (fun c => .jstr (String.singleton c)))
  | .jobj kvs => .ok (tasks ++ kvs.map (fun kv => .jstr kv.1))
  | _ => .error "TypeError: object is not iterable"

/-- `self.tasks[idx]["status"] = status`: item assignment requires the task at
that position to be a dict, else Python raises `TypeError`. -/
def setTaskStatus : List JVal → Nat → JVal → Except String (List JVal)
  | [], _, _ => .error "IndexError"
  | t :: rest, 0, v =>
    match t with
    | .jobj kvs => .ok (.jobj (dictSet kvs "status" v) :: rest)
    | _ => .error "TypeError: item assignment on non-dict task"
  | t :: rest, Nat.succ n, v => (setTaskStatus rest n v).map (fun l => t :: l)

/-- The `manage_tasks` mutation (lines 576-586): `add` extends with
`tasks` (default `[]`), `update` assigns the status only when the index is an
int (Python-style, bools included) within `[0, len)`, `clear` empties the
list, anything else leaves the list unchanged. -/
def applyTasksAction (tasks : List JVal) (args : JVal) : Except String (List JVal) :=
  match dget args "action" .jnull with
  | .jstr a =>
    if a = "add" then pyExtendIter tasks (dget args "tasks" (.jarr []))
    else if a = "update" then
      match toPyInt? (dget args "index" .jnull) with
      | some i =>
        if 0 ≤ i ∧ i < (tasks.length : Int) then setTaskStatus tasks i.toNat (dget args "status" .jnull)
        else .ok tasks
      | none => .ok tasks
    else if a = "clear" then .ok []
    else .ok tasks
  | _ => .ok tasks

/-- `status_emoji.get(status, "⏳")` (lines 156 and 165): Python `dict.get`
hashes its key first, so an unhashable status — a list or a dict — raises
`TypeError` out of `_format_plan`; every other (hashable) status value falls
back to the default emoji when it is not one of the three known strings. -/
def statusEmoji (status : JVal) : Except String String :=
  match status with
  | .jarr _ => .error "TypeError: unhashable type: \x27list\x27"
  | .jobj _ => .error "TypeError: unhashable type: \x27dict\x27"
  | .jstr s =>
    .ok (if s = "todo" then "⏳" else if s = "in_progress" then "🔄"
         else if s = "done" then "✅" else "⏳")
  | _ => .ok "⏳"

/-- One table row of `_format_plan` (lines 163-166); raises
(`AttributeError`) when the task is not a dict, since `task.get` is attribute
access, and propagates the `TypeError` of the emoji lookup on an unhashable
status — in evaluation order, before the f-string renders anything. -/
def planRow (i : Nat) (task : JVal) : Except String String :=
  match task with
  | .jobj kvs =>
    let status := (List.lookup "status" kvs).getD (.jstr "todo")
    let desc := (List.lookup "desc" kvs).getD ((List.lookup "title" kvs).getD (.jstr "Untitled"))
    do
      let emoji ← statusEmoji status
      .ok ("| " ++ toString (i + 1) ++ " | " ++ emoji ++ " " ++ pyFStr status ++ " | " ++ pyFStr desc ++ " |")
  | _ => .error "AttributeError: task has no attribute get"

/-- Build the rows, numbering from 0 (`enumerate`). -/
def planRows (i : Nat) : List JVal → Except String (List String)
  | [] => .ok []
  | t :: rest => do
    let r ← planRow i t
    let rs ← planRows (i + 1) rest
    .ok (r :: rs)

/-- `_format_plan(tasks)` (lines 148-169): the deterministic markdown table,
or `"No tasks planned."` for an empty list. -/
def formatPlan (tasks : List JVal) : Except String String :=
  match tasks with
  | [] => .ok "No tasks planned."
  | _ :: _ => do
    let rows ← planRows 0 tasks
    .ok (joinSep "\n"
      (["\n---\n", "## 📋 TASK PLAN\n", "---\n", "| # | Status | Task |", "|---|--------|------|"]
        ++ rows ++ ["\n---\n"]))

/-! ### Conversation data model -/

/-- One reconstructed tool call as the orchestrator sees it after streaming
(`tc.id`, `tc.function.name`, `tc.function.arguments`; the arguments value is
usually a JSON text, hence `JVal`). -/
structure ToolCallRec where
  id : Option String
  name : String
  arguments : JVal

/-- One history message. -/
inductive Msg where
  | system (content : String)
  | user (content : String)
  | assistant (content : String) (toolCalls : List ToolCallRec)
  | tool (toolCallId : Option String) (name : String) (content : String)

/-- Content of a history message. -/
def msgContent : Msg → String
  | .system c => c
  | .user c => c
  | .assistant c _ => c
  | .tool _ _ c => c

/-- The assistant message appended to history at stream end (lines 409-426):
its `content` is the raw `full_content` (thought tags deliberately kept,
per the comment at lines 387-389), plus the reconstructed tool calls. -/
def mkAssistantMsg (fullContent : String) (tcs : List ToolCallRec) : Msg :=
  .assistant fullContent tcs

/-- Events yielded to the front end. -/
inductive Event where
  | thought (content : String)
  | message (content : String)
  | toolCall (name : String) (args : JVal)
  | toolResult (name : String) (content : JVal)
  | taskUpdate (tasks : List JVal)

/-- The mutable agent session state touched by one `run_agent` call. -/
structure AgentState where
  tasks : List JVal
  approved : List String
  trusted : List String
  pending : List String
  history : List Msg
  loopSt : LoopState
  narrationRetries : Nat
  lessons : List (String × String)

/-- External collaborators, at the exact interface `run_agent` consumes:
`loads` is `json.loads` (`none` = raised), `isSens` is
`mcp_manager.is_sensitive`, `callTool` is `mcp_manager.call_tool`
(`.error` = raised). -/
structure Oracles where
  loads : String → Option JVal
  isSens : String → JVal → Bool
  callTool : String → JVal → Except String JVal

/-! ### Conversational security scan (agent.py lines 214-233) -/

/-- The affirmative keywords of line 222, in order. -/
def affirmTokens : List String :=
  ["yes", "y", "ok", "okay", "sure", "go", "proceed", "approve", "do it", "fine", "go ahead", "go on"]

/-- The negative keywords of line 231. -/
def negTokens : List String :=
  ["no", "n", "stop", "cancel", "don\x27t"]

/-- Add if absent (Python `set.add` / `set.update`, modelled on lists). -/
def insertNew (l : List String) (x : String) : List String :=
  if x ∈ l then l else l ++ [x]

/-- Union of string sets. -/
def unionNew (l : List String) (xs : List String) : List String :=
  xs.foldl insertNew l

/-- `h.split(":", 1)[0]`: the part before the first colon (the whole string
when there is none). -/
def hashToolName (h : String) : String :=
  String.mk (h.data.takeWhile (fun c => ¬ c = ':'))

/-- `user_text.lower().strip()`. -/
def lowerStrip (s : String) : List Char :=
  pyStrip (s.data.map asciiLower)

/-- The out-of-band approval scan run before anything else in `run_agent`
(lines 219-233): with pending hashes, an affirmative substring anywhere in the
lowercased stripped text approves everything pending and session-trusts each
hash's tool-name prefix; otherwise a negative substring merely discards the
pending set; otherwise nothing changes. -/
def approvalScan (st : AgentState) (userText : String) : AgentState :=
  if st.pending = [] then st
  else
    let lower := lowerStrip userText
    if affirmTokens.any (fun t => hasSub t.data lower) then
      { st with approved := unionNew st.approved st.pending,
                trusted := unionNew st.trusted (st.pending.map hashToolName),
                pending := [] }
    else if negTokens.any (fun t => hasSub t.data lower) then
      { st with pending := [] }
    else st

/-! ### Permission gate and tool execution (agent.py lines 616-678) -/

/-- `tool_hash = f"{tool_name}:{json.dumps(tool_args, sort_keys=True)}"`. -/
def toolHash (name : String) (args : JVal) : String :=
  name ++ ":" ++ jsonDumps true args

/-- The synthetic instructional result fed back to the model when a sensitive
call is blocked (line 639). -/
def synthPermissionResult : String :=
  "SYSTEM_REQUIREMENT: You must explain what this command does and ask the user for explicit permission to run it (e.g. \x27I need to run bash... Is that ok?\x27). Do not run the command again until the user says yes. stop_and_ask_user()"

/-- How one processed tool call ends: go on to the next call, return from
`run_agent` (the planning path), or propagate an exception. -/
inductive StepExit where
  | next : StepExit
  | ret : StepExit
  | err (msg : String) : StepExit

/-- Output of processing: events in emission order, the new state, the calls
actually executed through `mcp_manager.call_tool`, and how to continue. -/
structure StepOut where
  events : List Event
  st : AgentState
  executed : List (String × JVal)
  exit : StepExit

/-- A non-`manage_tasks` tool call (lines 616-678): parse arguments, emit the
two lead events, then either block at the permission gate (pending hash,
synthetic result, no execution) or execute through the oracle, folding a raised
exception into an `"Error: ..."` result. -/
def gateExecStep (os : Oracles) (st : AgentState) (tc : ToolCallRec) : StepOut :=
  let args := parseArgsV os.loads tc.arguments
  let evs0 := [Event.thought ("Executing process: " ++ tc.name ++ "..."),
               Event.toolCall tc.name args]
  let hash := toolHash tc.name args
  if os.isSens tc.name args = true ∧ ¬ tc.name ∈ st.trusted ∧ ¬ hash ∈ st.approved then
    { events := evs0 ++ [Event.thought ("🔐 Permission required for " ++ tc.name ++ ". Asking user..."),
                         Event.toolResult tc.name (.jstr synthPermissionResult)],
      st := { st with pending := insertNew st.pending hash,
                      history := st.history ++ [.tool tc.id tc.name (jsonDumps false (.jstr synthPermissionResult))] },
      executed := [], exit := .next }
  else
    match os.callTool tc.name args with
    | .ok v =>
      { events := evs0 ++ [Event.toolResult tc.name v],
        st := { st with history := st.history ++ [.tool tc.id tc.name (jsonDumps false v)] },
        executed := [(tc.name, args)], exit := .next }
    | .error e =>
      let res := JVal.jstr ("Error: " ++ e)
      { events := evs0 ++ [Event.thought ("❌ Error in " ++ tc.name ++ ": " ++ e),
                           Event.toolResult tc.name res],
        st := { st with history := st.history ++ [.tool tc.id tc.name (jsonDumps false res)] },
        executed := [(tc.name, args)], exit := .next }

/-- The approval message of line 598. -/
def planApprovalMsg (formatted : String) : String :=
  "I\x27ve created a plan for this request. Please review the plan above. Shall I proceed?" ++ formatted

/-- The `manage_tasks` tool-result value (line 591). -/
def tasksResultVal (action : JVal) (formatted : String) : JVal :=
  .jobj [("status", .jstr "success"),
         ("message", .jstr ("Tasks " ++ pyFStr action ++ "ed")),
         ("formatted", .jstr formatted)]

/-- A `manage_tasks` call (lines 575-615): mutate the task list, render the
plan, emit `task_update`; on `action="add"` additionally emit the approval
message and the tool result, append the tool message to history, and return
from `run_agent`; other actions emit the tool result and continue.  A Python
exception from `extend`/item assignment/`_format_plan` propagates. -/
def manageTasksStep (os : Oracles) (st : AgentState) (tc : ToolCallRec) : StepOut :=
  let args := parseArgsV os.loads tc.arguments
  let action := dget args "action" .jnull
  match applyTasksAction st.tasks args with
  | .error m => { events := [], st := st, executed := [], exit := .err m }
  | .ok ts =>
    let st1 := { st with tasks := ts }
    match formatPlan ts with
    | .error m => { events := [], st := st1, executed := [], exit := .err m }
    | .ok fp =>
      let result := tasksResultVal action fp
      let histMsg := Msg.tool tc.id "manage_tasks" (jsonDumps false result)
      if isAddVal (some action) then
        { events := [Event.taskUpdate ts, Event.message (planApprovalMsg fp),
                     Event.toolResult "manage_tasks" result],
          st := { st1 with history := st1.history ++ [histMsg] },
          executed := [], exit := .ret }
      else
        { events := [Event.taskUpdate ts, Event.toolResult "manage_tasks" result],
          st := { st1 with history := st1.history ++ [histMsg] },
          executed := [], exit := .next }

/-- Dispatch one active tool call. -/
def execOneCall (os : Oracles) (st : AgentState) (tc : ToolCallRec) : StepOut :=
  if tc.name = "manage_tasks" then manageTasksStep os st tc else gateExecStep os st tc

/-- Run the active tool calls in order, stopping at a `return` or an
exception. -/
def runCalls (os : Oracles) (st : AgentState) : List ToolCallRec → StepOut
  | [] => { events := [], st := st, executed := [], exit := .next }
  | tc :: rest =>
    let s := execOneCall os st tc
    match s.exit with
    | .next =>
      let r := runCalls os s.st rest
      { events := s.events ++ r.events, st := r.st,
        executed := s.executed ++ r.executed, exit := r.exit }
    | .ret => s
    | .err m => { events := s.events, st := s.st, executed := s.executed, exit := .err m }

/-- Is this tool call the planning call (`manage_tasks` with
`get_tool_action(tc) == "add"`, line 554)? -/
def isPlanningCall (loads : String → Option JVal) (tc : ToolCallRec) : Bool :=
  tc.name = "manage_tasks" ∧ isAddVal (getToolAction loads tc.arguments)

/-- The tool-processing phase of a turn (lines 537-559): if any requested call
is the planning call, only the first such call is active and all others are
discarded; otherwise all calls run in order. -/
def toolPhase (os : Oracles) (st : AgentState) (tcs : List ToolCallRec) : StepOut :=
  let planning := tcs.find? (isPlanningCall os.loads)
  let active := match planning with | some p => [p] | none => tcs
  runCalls os st active

/-! ### The per-turn state machine (agent.py lines 302-678) -/

/-- One turn's decoded router response: either the router raised, or a
stream that decoded to `full_content` plus the reconstructed tool calls. -/
inductive TurnIn where
  | routerError (msg : String)
  | data (fullContent : String) (toolCalls : List ToolCallRec)

/-- How a turn ends: continue the multi-turn loop, `break` out of it,
`return` from `run_agent`, or propagate an exception. -/
inductive Outcome where
  | contin : Outcome
  | brk : Outcome
  | ret : Outcome
  | raise (msg : String) : Outcome
deriving DecidableEq

/-- Output of one turn. -/
structure TurnOut where
  events : List Event
  st : AgentState
  executed : List (String × JVal)
  outcome : Outcome

/-- `"?" in clean_content.strip()[-5:] and len(clean_content) < maxLen`
(lines 478 and 528). -/
def questionCheck (clean : String) (maxLen : Nat) : Bool :=
  let t := pyStrip clean.data
  (t.drop (t.length - 5)).contains '?' ∧ clean.length < maxLen

/-- Fixed message strings of the turn loop. -/
def loopThoughtMsg : String := "⚠️ Loop detected - breaking out to ask user for guidance."

/-- Line 441. -/
def loopBreakMsg : String := "I notice I may be stuck in a loop. What do you actually need from me right now?"

/-- Line 443. -/
def loopLessonMsg : String := "Loop detected and broken - user redirected"

/-- Line 470. -/
def emptyRespMsg : String := "_[System: Received empty response from model. Please try a more specific query.]_"

/-- Line 512. -/
def nudgeMsg : String := "[SYSTEM: Progress acknowledged. Proceed with your next step using a tool call NOW. Do not describe what you will do — just execute. If you are finished, just say so.]"

/-- Line 533. -/
def waitingMsg : String := "[SYSTEM: Waiting for user response to the above question before proceeding with tools.]"

/-- One turn of the multi-turn loop after the router call: append the
assistant message, clean the content, run loop detection, then the
final-answer / question / narration / tool-execution decision tree. -/
def processTurn (os : Oracles) (turnIdx : Nat) (st : AgentState) : TurnIn → TurnOut
  | .routerError m =>
    { events := [Event.thought ("⚠️ System Switch: " ++ m)], st := st,
      executed := [], outcome := .raise m }
  | .data full tcs =>
    let st1 := { st with history := st.history ++ [mkAssistantMsg full tcs] }
    let clean := cleanContent full
    let dl := detectLoop st1.loopSt clean tcs.length
    let st2 := { st1 with loopSt := dl.1 }
    if dl.2 then
      { events := [Event.thought loopThoughtMsg, Event.message loopBreakMsg],
        st := { st2 with lessons := st2.lessons ++ [(loopLessonMsg, String.mk (clean.data.take 100))] },
        executed := [], outcome := .brk }
    else
      match tcs with
      | [] =>
        if turnIdx = 0 ∨ clean = "" then
          if clean ≠ "" then { events := [Event.message clean], st := st2, executed := [], outcome := .brk }
          else if turnIdx = 0 then
            { events := [Event.message emptyRespMsg], st := st2, executed := [], outcome := .brk }
          else { events := [], st := st2, executed := [], outcome := .brk }
        else
          if ¬ st2.pending = [] ∨ questionCheck clean 200 then
            { events := if clean ≠ "" then [Event.message clean] else [],
              st := st2, executed := [], outcome := .brk }
          else
            let r := st2.narrationRetries + 1
            if 3 ≤ r then
              { events := [Event.thought clean, Event.message clean],
                st := { st2 with narrationRetries := r }, executed := [], outcome := .brk }
            else
              { events := [Event.thought clean],
                st := { st2 with narrationRetries := r, history := st2.history ++ [.user nudgeMsg] },
                executed := [], outcome := .contin }
      | _ :: _ =>
        let st3 := { st2 with narrationRetries := 0, loopSt := { st2.loopSt with count := 0 } }
        let msgEvs := if clean ≠ "" then [Event.message clean] else []
        if questionCheck clean 400 then
          { events := msgEvs, st := { st3 with history := st3.history ++ [.user waitingMsg] },
            executed := [], outcome := .brk }
        else
          let ph := toolPhase os st3 tcs
          { events := msgEvs ++ ph.events, st := ph.st, executed := ph.executed,
            outcome := match ph.exit with
                       | .next => .contin
                       | .ret => .ret
                       | .err m => .raise m }

/-- How a whole `run_agent` invocation ended. -/
inductive ExitKind where
  | finished : ExitKind
  | returned : ExitKind
  | raised : ExitKind
deriving DecidableEq

/-- Output of the multi-turn loop: events, final state, executed external
calls, the exit kind, and the number of `memory.add_memory` invocations
performed at line 680 (reached only when the `for` loop ends by `break` or
exhaustion — an early `return` or a propagating exception skips it). -/
structure RunOut where
  events : List Event
  st : AgentState
  executed : List (String × JVal)
  exit : ExitKind
  memoryCalls : Nat

/-- `max_turns` (line 301). -/
def maxTurns : Nat := 50

/-- The multi-turn loop (`for turn in range(max_turns)`, lines 302-678),
driven by the script of per-turn router responses; turn 0 first yields the
`"..."` thought (line 304). -/
def runLoop (os : Oracles) (turnIdx : Nat) (st : AgentState) : List TurnIn → RunOut
  | [] => { events := [], st := st, executed := [], exit := .finished, memoryCalls := 1 }
  | t :: rest =>
    if maxTurns ≤ turnIdx then
      { events := [], st := st, executed := [], exit := .finished, memoryCalls := 1 }
    else
      let pre := if turnIdx = 0 then [Event.thought "..."] else []
      let out := processTurn os turnIdx st t
      match out.outcome with
      | .contin =>
        let r := runLoop os (turnIdx + 1) out.st rest
        { events := pre ++ out.events ++ r.events, st := r.st,
          executed := out.executed ++ r.executed, exit := r.exit, memoryCalls := r.memoryCalls }
      | .brk =>
        { events := pre ++ out.events, st := out.st, executed := out.executed,
          exit := .finished, memoryCalls := 1 }
      | .ret =>
        { events := pre ++ out.events, st := out.st, executed := out.executed,
          exit := .returned, memoryCalls := 0 }
      | .raise _ =>
        { events := pre ++ out.events, st := out.st, executed := out.executed,
          exit := .raised, memoryCalls := 0 }

/-- The per-query resets at lines 209-212 (`_narration_retries`,
`_system_instruction_count`, `_loop_detected`; the thought buffer belongs to
the decoder model). -/
def agentResetPerQuery (st : AgentState) : AgentState :=
  { st with narrationRetries := 0, loopSt := loopResetPerQuery st.loopSt }

/-- History setup (lines 252-259): the system message is rewritten in place
(or created when history is empty), then the user message is appended.
`fullSystemPrompt` stands for `f"{self.system_prompt} Retrieved Context: {ctx}"`
whose text is built from the retrieved-memory oracle. -/
def updateSystemMsg (fullSystemPrompt : String) : List Msg → List Msg
  | [] => [.system fullSystemPrompt]
  | .system _ :: rest => .system fullSystemPrompt :: rest
  | h :: rest => h :: rest

/-- A whole top-level `run_agent(user_text)` invocation over a script of
router responses: the empty-text early return (line 206-207), the per-query
resets, the approval scan, history setup, the multi-turn loop, and the final
`memory.add_memory` (line 680) — which the plan-pending `return` (line 615)
and a propagating exception both skip. -/
def runAgentModel (os : Oracles) (fullSystemPrompt : String) (st : AgentState)
    (userText : String) (script : List TurnIn) : RunOut :=
  if userText = "" then
    { events := [], st := st, executed := [], exit := .returned, memoryCalls := 0 }
  else
    let st1 := agentResetPerQuery st
    let st2 := approvalScan st1 userText
    let st3 := { st2 with history := updateSystemMsg fullSystemPrompt st2.history ++ [.user userText] }
    runLoop os 0 st3 script

/-! ### Structured content segments (for the tag-stripping theorem) -/

/-- Structured turn content: plain text segments interleaved with thought
blocks (closed, or unterminated at end of stream). -/
inductive Seg where
  | plain (s : List Char)
  | block (t : Tag) (interior : List Char) (closed : Bool)

/-- Render a segment to the character stream the model would emit. -/
def renderSeg : Seg → List Char
  | .plain s => s
  | .block t i true => openTag t ++ i ++ closeTag t
  | .block t i false => openTag t ++ i

/-- Render a segment list. -/
def renderSegs (segs : List Seg) : List Char :=
  (segs.map renderSeg).foldr (fun a b => a ++ b) []

/-- No `<` character (plain text and tag interiors do not start tags). -/
def noLt (l : List Char) : Bool :=
  ¬ ('<' ∈ l)

/-- Well-formed segment lists: plain text and interiors contain no `<`, and
an unterminated block can only be the final segment. -/
def wfSegs : List Seg → Bool
  | [] => true
  | [.block _ i false] => noLt i
  | .plain s :: rest => noLt s && wfSegs rest
  | .block _ i true :: rest => noLt i && wfSegs rest
  | .block _ _ false :: _ :: _ => false

/-- Concatenation of the plain segments (what survives tag stripping). -/
def concatPlains : List Seg → List Char
  | [] => []
  | .plain s :: rest => s ++ concatPlains rest
  | .block _ _ _ :: rest => concatPlains rest

/-- The final newline that `$` leaves behind when the last segment is an
unterminated block whose interior ends in a newline. -/
def tailNL : List Seg → List Char
  | [.block _ i false] => if endsNL i then ['\n'] else []
  | [] => []
  | _ :: rest => tailNL rest


/-! ## Theorems -/

/-- Claim C4: for every tool-call arguments value — a valid JSON object
string, a double-encoded JSON string, invalid JSON (`loads` raising, modelled
as `none`), or a non-string value — the defensive parser of the tool-execution
step never raises (it is a total function) and always produces a dict. -/
theorem c4_parse_args_total (loads : String → Option JVal) (raw : JVal) :
    (parseArgsV loads raw).isObj = true := by
  cases raw <;> simp only [parseArgsV] <;> try rfl
  repeat (first | rfl | split)

/-- Claim C8 (counterexample): the per-query reset of `run_agent` does NOT
reset `_last_response_hash` — after the reset it still holds the previous
invocation's fingerprint, and a single repetition of that fingerprint in the
new invocation already declares a loop (second call returns `true`), which
could not happen if the last fingerprint had been reset (third conjunct). -/
theorem c8_reset_cex :
    (loopResetPerQuery ⟨7, some (fingerprintStr "same answer" 0), true⟩).lastHash
      = some (fingerprintStr "same answer" 0) ∧
    (detectLoop (detectLoop (loopResetPerQuery ⟨7, some (fingerprintStr "same answer" 0), true⟩)
        "same answer" 0).1 "same answer" 0).2 = true ∧
    (detectLoop (detectLoop (loopResetPerQuery ⟨7, none, false⟩)
        "same answer" 0).1 "same answer" 0).2 = false := by
  exact ⟨rfl, by decide, by decide⟩

/-- Claim C8 (amended): at the start of every top-level invocation the
stall-loop counter and the loop flag are reset, but the last-fingerprint is
left untouched; consequently the first turn of the new invocation increments
the counter to 1 exactly when it repeats the previous invocation's final
fingerprint (so earlier fingerprints can contribute), though a loop is never
declared on that first comparison alone. -/
theorem c8_reset_amended (st : AgentState) (c : String) (n : Nat) :
    (agentResetPerQuery st).loopSt.count = 0 ∧
    (agentResetPerQuery st).loopSt.loopDetected = false ∧
    (agentResetPerQuery st).loopSt.lastHash = st.loopSt.lastHash ∧
    (detectLoop (agentResetPerQuery st).loopSt c n).2 = false ∧
    (detectLoop (agentResetPerQuery st).loopSt c n).1.count =
      (if some (fingerprintStr c n) = st.loopSt.lastHash then 1 else 0) := by
  refine ⟨rfl, rfl, rfl, ?_, ?_⟩ <;>
  · unfold detectLoop agentResetPerQuery loopResetPerQuery
    by_cases hh : some (fingerprintStr c n) = st.loopSt.lastHash <;> simp [hh]

/-- Claim C9: `manage_tasks` task-list semantics — `update` with an index
outside `[0, length)` is a no-op, `add` with an array of `n` tasks strictly
appends them (the length grows by exactly `n` and the prior prefix is
unchanged), and `clear` always yields the empty list. -/
theorem c9_manage_tasks_ops :
    (∀ (tasks : List JVal) (args : JVal) (i : Int),
        dget args "action" .jnull = .jstr "update" →
        toPyInt? (dget args "index" .jnull) = some i →
        ¬ (0 ≤ i ∧ i < (tasks.length : Int)) →
        applyTasksAction tasks args = .ok tasks) ∧
    (∀ (tasks : List JVal) (args : JVal) (ts : List JVal),
        dget args "action" .jnull = .jstr "add" →
        dget args "tasks" (.jarr []) = .jarr ts →
        applyTasksAction tasks args = .ok (tasks ++ ts) ∧
        (tasks ++ ts).length = tasks.length + ts.length ∧
        (tasks ++ ts).take tasks.length = tasks) ∧
    (∀ (tasks : List JVal) (args : JVal),
        dget args "action" .jnull = .jstr "clear" →
        applyTasksAction tasks args = .ok []) := by
  refine ⟨?_, ?_, ?_⟩
  · intro tasks args i h1 h2 h3
    simp only [applyTasksAction, h1, h2]
    simp [h3]
  · intro tasks args ts h1 h2
    refine ⟨?_, by simp, by simp⟩
    simp only [applyTasksAction, h1, h2]
    simp [pyExtendIter]
  · intro tasks args h1
    simp only [applyTasksAction, h1]
    simp

/-- Claim C9 (witness): the three operations evaluated at concrete inputs —
an out-of-bounds update leaves a one-task list unchanged, an add of one task
appends it, and clear empties the list. -/
theorem c9_manage_tasks_ops_witness :
    applyTasksAction [.jobj [("desc", .jstr "a"), ("status", .jstr "todo")]]
        (.jobj [("action", .jstr "update"), ("index", .jnum 5), ("status", .jstr "done")])
      = .ok [.jobj [("desc", .jstr "a"), ("status", .jstr "todo")]] ∧
    applyTasksAction [.jobj [("desc", .jstr "a"), ("status", .jstr "todo")]]
        (.jobj [("action", .jstr "add"), ("tasks", .jarr [.jobj [("desc", .jstr "b"), ("status", .jstr "todo")]])])
      = .ok [.jobj [("desc", .jstr "a"), ("status", .jstr "todo")],
             .jobj [("desc", .jstr "b"), ("status", .jstr "todo")]] ∧
    applyTasksAction [.jobj [("desc", .jstr "a"), ("status", .jstr "todo")]]
        (.jobj [("action", .jstr "clear")]) = .ok [] := by
  refine ⟨?_, ?_, ?_⟩
  · exact c9_manage_tasks_ops.1 [.jobj [("desc", .jstr "a"), ("status", .jstr "todo")]]
      (.jobj [("action", .jstr "update"), ("index", .jnum 5), ("status", .jstr "done")]) 5 rfl rfl (by decide)
  · exact (c9_manage_tasks_ops.2.1 [.jobj [("desc", .jstr "a"), ("status", .jstr "todo")]]
      (.jobj [("action", .jstr "add"), ("tasks", .jarr [.jobj [("desc", .jstr "b"), ("status", .jstr "todo")]])])
      [.jobj [("desc", .jstr "b"), ("status", .jstr "todo")]] rfl rfl).1
  · exact c9_manage_tasks_ops.2.2 [.jobj [("desc", .jstr "a"), ("status", .jstr "todo")]]
      (.jobj [("action", .jstr "clear")]) rfl

/-- The accumulated `full_content` is insensitive to how the stream was
fragmented: each fragment is appended and nothing else touches it. -/
theorem processFragment_full (st : DecState) (c : List Char) :
    (processFragment st c).full = st.full ++ c := by
  unfold processFragment
  cases h : (thoughtMatches (st.full ++ c)).getLast? <;> simp [h]

/-- Folding the decoder accumulates exactly the concatenation. -/
theorem decode_full_eq (frags : List (List Char)) :
    ∀ st : DecState, (frags.foldl processFragment st).full =
      frags.foldl (fun a c => a ++ c) st.full := by
  induction frags with
  | nil => intro st; rfl
  | cons c fs ih =>
    intro st
    simp only [List.foldl_cons]
    rw [ih, processFragment_full]

/-- Concatenation folds from any prefix. -/
theorem foldl_append_shift (frags : List (List Char)) :
    ∀ a : List Char, frags.foldl (fun x y => x ++ y) a = a ++ concatFrags frags := by
  induction frags with
  | nil => intro a; simp [concatFrags]
  | cons c fs ih =>
    intro a
    show List.foldl (fun x y => x ++ y) (a ++ c) fs = a ++ concatFrags (c :: fs)
    have hc : concatFrags (c :: fs) = c ++ concatFrags fs := by
      show List.foldl (fun x y => x ++ y) ([] ++ c) fs = c ++ concatFrags fs
      rw [ih ([] ++ c)]
      simp
    rw [ih (a ++ c), hc, List.append_assoc]

/-- Claim C5 (counterexample): splitting
`"<thought>hi</thought><thought></thought>"` between the two tags changes the
final live-thought text.  The unsplit run ends with an empty thought (the last
match scrubs to empty, so the buffer is never set), while the split run keeps
`"hi"` from the first fragment's scan — even though the fragments concatenate
to exactly the unsplit content. -/
theorem c5_split_thought_cex :
    concatFrags ["<thought>hi</thought>".data, "<thought></thought>".data]
      = "<thought>hi</thought><thought></thought>".data ∧
    (decodeFragments ["<thought>hi</thought>".data, "<thought></thought>".data]).thought
      = "hi".data ∧
    (decodeFragments ["<thought>hi</thought><thought></thought>".data]).thought = [] ∧
    (decodeFragments ["<thought>hi</thought>".data, "<thought></thought>".data]).thought
      ≠ (decodeFragments ["<thought>hi</thought><thought></thought>".data]).thought := by
  exact ⟨by decide, by decide, by decide, by decide⟩

/-- Claim C5 (amended): decoding a fragment sequence split at arbitrary
character boundaries yields the same final `full_content` — and hence the same
final `cleanContent` — as decoding the equivalent single unsplit fragment; the
final live-thought text, however, is not split-invariant (see the
counterexample), because the buffer is only overwritten by non-empty scrubbed
matches. -/
theorem c5_clean_content_split_invariant (frags : List (List Char)) :
    (decodeFragments frags).full = (decodeFragments [concatFrags frags]).full ∧
    cleanContent (String.mk (decodeFragments frags).full)
      = cleanContent (String.mk (decodeFragments [concatFrags frags]).full) := by
  have h1 : (decodeFragments frags).full = concatFrags frags := by
    unfold decodeFragments
    rw [decode_full_eq, foldl_append_shift]
    rfl
  have h2 : (decodeFragments [concatFrags frags]).full = concatFrags frags := by
    unfold decodeFragments
    simp only [List.foldl_cons, List.foldl_nil]
    rw [processFragment_full]
    rfl
  rw [h1, h2]
  exact ⟨rfl, rfl⟩


/-- Membership after a set-style insert. -/
theorem mem_insertNew {l : List String} {x y : String} :
    y ∈ insertNew l x ↔ y ∈ l ∨ y = x := by
  unfold insertNew
  by_cases h : x ∈ l
  · simp only [if_pos h]
    constructor
    · exact Or.inl
    · rintro (hy | rfl)
      · exact hy
      · exact h
  · simp [if_neg h]

/-- One union step. -/
theorem unionNew_cons (l : List String) (x : String) (xs : List String) :
    unionNew l (x :: xs) = unionNew (insertNew l x) xs := rfl

/-- Membership is preserved by a set-style union. -/
theorem mem_unionNew_left {xs : List String} :
    ∀ {l : List String} {y : String}, y ∈ l → y ∈ unionNew l xs := by
  induction xs with
  | nil => intro l y h; exact h
  | cons x xs ih =>
    intro l y h
    rw [unionNew_cons]
    exact ih (mem_insertNew.mpr (Or.inl h))

/-- Everything unioned in is a member afterwards. -/
theorem mem_unionNew_right {xs : List String} :
    ∀ {l : List String} {y : String}, y ∈ xs → y ∈ unionNew l xs := by
  induction xs with
  | nil => intro l y h; cases h
  | cons x xs ih =>
    intro l y h
    rw [unionNew_cons]
    cases h with
    | head => exact mem_unionNew_left (mem_insertNew.mpr (Or.inr rfl))
    | tail _ h => exact ih h

/-- Claim C10 (implicit): the out-of-band approval scan matches its keywords
as raw substrings of the lowercased stripped user text.  Whenever
`pendingHashes` is non-empty and any affirmative token — including the single
letter `"y"` — occurs anywhere inside the text, every pending hash moves to
`approvedHashes`, each hash's tool-name prefix (before the first `":"`) is
added to `trustedTools` and the pending set empties; the negative-token branch
is an `elif`, so it is never reached in that case (the conclusion holds no
matter which negative tokens also occur). -/
theorem c10_approval_substring (st : AgentState) (text : String)
    (hp : ¬ st.pending = [])
    (ha : ∃ t ∈ affirmTokens, hasSub t.data (lowerStrip text) = true) :
    (∀ h ∈ st.pending, h ∈ (approvalScan st text).approved) ∧
    (∀ h ∈ st.pending, hashToolName h ∈ (approvalScan st text).trusted) ∧
    (approvalScan st text).pending = [] ∧
    (∀ a ∈ st.approved, a ∈ (approvalScan st text).approved) ∧
    (∀ a ∈ st.trusted, a ∈ (approvalScan st text).trusted) := by
  have hb : affirmTokens.any (fun t => hasSub t.data (lowerStrip text)) = true := by
    rw [List.any_eq_true]
    obtain ⟨t, ht, hs⟩ := ha
    exact ⟨t, ht, hs⟩
  unfold approvalScan
  rw [if_neg hp, if_pos hb]
  refine ⟨?_, ?_, rfl, ?_, ?_⟩
  · intro h hh
    exact mem_unionNew_right hh
  · intro h hh
    exact mem_unionNew_right (List.mem_map_of_mem hashToolName hh)
  · intro a ha
    exact mem_unionNew_left ha
  · intro a ha
    exact mem_unionNew_left ha

/-- Claim C10 (witness): with a pending `bash` hash, the reply
`"don't do it yet"` — which contains the negative token `"don't"` but also the
letter `"y"` inside `"yet"` — approves the hash, trusts `"bash"` and clears
the pending set. -/
theorem c10_approval_substring_witness :
    "bash:x" ∈ (approvalScan
        (⟨[], [], [], ["bash:x"], [], ⟨0, none, false⟩, 0, []⟩ : AgentState)
        "don\x27t do it yet").approved ∧
    "bash" ∈ (approvalScan
        (⟨[], [], [], ["bash:x"], [], ⟨0, none, false⟩, 0, []⟩ : AgentState)
        "don\x27t do it yet").trusted ∧
    (approvalScan
        (⟨[], [], [], ["bash:x"], [], ⟨0, none, false⟩, 0, []⟩ : AgentState)
        "don\x27t do it yet").pending = [] := by
  have h := c10_approval_substring
    (⟨[], [], [], ["bash:x"], [], ⟨0, none, false⟩, 0, []⟩ : AgentState)
    "don\x27t do it yet" (by decide) ⟨"y", by decide, by decide⟩
  refine ⟨h.1 "bash:x" (by decide), ?_, h.2.2.1⟩
  have h2 := h.2.1 "bash:x" (by decide)
  rw [show hashToolName "bash:x" = "bash" from rfl] at h2
  exact h2


/-! ### Accumulator invariants (for claim C7) -/

/-- One step of the first-occurrence fold. -/
theorem firstOcc_concat (fs : List TCFrag) (f : TCFrag) :
    firstOccIdxs (fs ++ [f]) =
      (if f.index ∈ firstOccIdxs fs then firstOccIdxs fs else firstOccIdxs fs ++ [f.index]) := by
  unfold firstOccIdxs
  rw [List.foldl_append]
  rfl

/-- Membership in the first-occurrence fold. -/
theorem mem_firstOccAux (frags : List TCFrag) :
    ∀ (acc : List Nat) (i : Nat),
      (i ∈ frags.foldl (fun a f => if f.index ∈ a then a else a ++ [f.index]) acc ↔
        i ∈ acc ∨ ∃ f ∈ frags, f.index = i) := by
  induction frags with
  | nil => intro acc i; simp
  | cons f fs ih =>
    intro acc i
    rw [List.foldl_cons, ih]
    by_cases h : f.index ∈ acc
    · rw [if_pos h]
      constructor
      · rintro (h1 | ⟨g, hg, hgi⟩)
        · exact Or.inl h1
        · exact Or.inr ⟨g, List.mem_cons_of_mem f hg, hgi⟩
      · rintro (h1 | ⟨g, hg, hgi⟩)
        · exact Or.inl h1
        · rcases List.mem_cons.mp hg with rfl | hg2
          · exact Or.inl (hgi ▸ h)
          · exact Or.inr ⟨g, hg2, hgi⟩
    · rw [if_neg h]
      constructor
      · rintro (h1 | ⟨g, hg, hgi⟩)
        · rcases List.mem_append.mp h1 with h2 | h2
          · exact Or.inl h2
          · exact Or.inr ⟨f, List.mem_cons_self f fs, (List.mem_singleton.mp h2).symm⟩
        · exact Or.inr ⟨g, List.mem_cons_of_mem f hg, hgi⟩
      · rintro (h1 | ⟨g, hg, hgi⟩)
        · exact Or.inl (List.mem_append.mpr (Or.inl h1))
        · rcases List.mem_cons.mp hg with rfl | hg2
          · exact Or.inl (List.mem_append.mpr (Or.inr (List.mem_singleton.mpr hgi.symm)))
          · exact Or.inr ⟨g, hg2, hgi⟩

/-- Index membership of `firstOccIdxs`. -/
theorem mem_firstOcc {frags : List TCFrag} {i : Nat} :
    i ∈ firstOccIdxs frags ↔ ∃ f ∈ frags, f.index = i := by
  rw [firstOccIdxs, mem_firstOccAux]
  simp

/-- The first-occurrence fold preserves `Nodup`. -/
theorem nodup_firstOccAux (frags : List TCFrag) :
    ∀ acc : List Nat, acc.Nodup →
      (frags.foldl (fun a f => if f.index ∈ a then a else a ++ [f.index]) acc).Nodup := by
  induction frags with
  | nil => intro acc h; exact h
  | cons f fs ih =>
    intro acc h
    rw [List.foldl_cons]
    by_cases hm : f.index ∈ acc
    · rw [if_pos hm]; exact ih acc h
    · rw [if_neg hm]
      exact ih _ (by simp [List.nodup_append, h, hm])

/-- `firstOccIdxs` has no duplicates. -/
theorem nodup_firstOcc (frags : List TCFrag) : (firstOccIdxs frags).Nodup :=
  nodup_firstOccAux frags [] List.nodup_nil

/-- Looking up the graph of a function over a key list. -/
theorem lookup_map_graph (g : Nat → TCEntry) (k : Nat) :
    ∀ L : List Nat,
      (L.map (fun i => (i, g i))).lookup k = if k ∈ L then some (g k) else none := by
  intro L
  induction L with
  | nil => rfl
  | cons a L ih =>
    by_cases h : k = a
    · subst h
      simp [List.lookup]
    · simp [List.lookup, beq_false_of_ne h, ih, h]

/-- `accUpdate` on the graph of a function over a duplicate-free key list. -/
theorem accUpdate_map_graph (f : TCFrag) (g : Nat → TCEntry) :
    ∀ L : List Nat, L.Nodup →
      accUpdate f.index f (L.map (fun i => (i, g i))) =
        L.map (fun i => (i, if i = f.index then applyFrag (g i) f else g i)) := by
  intro L
  induction L with
  | nil => intro _; rfl
  | cons a L ih =>
    intro hnd
    rw [List.map_cons, List.map_cons]
    unfold accUpdate
    by_cases h : a = f.index
    · rw [if_pos h, if_pos h]
      have hnotin : f.index ∉ L := h ▸ (List.nodup_cons.mp hnd).1
      have hmap : L.map (fun i => (i, if i = f.index then applyFrag (g i) f else g i)) =
          L.map (fun i => (i, g i)) := by
        apply List.map_congr_left
        intro i hi
        have hne : i ≠ f.index := fun he => hnotin (he ▸ hi)
        simp [hne]
      rw [hmap]
    · rw [if_neg h, if_neg h, ih (List.nodup_cons.mp hnd).2]

/-- `specEntry` over a non-empty prefix extended by one fragment. -/
theorem specEntry_concat_ne (fs : List TCFrag) (f : TCFrag) (h : fs ≠ []) :
    specEntry (fs ++ [f]) = applyFrag (specEntry fs) f := by
  cases fs with
  | nil => exact absurd rfl h
  | cons g gs =>
    unfold specEntry
    rw [List.foldl_append]
    rfl

/-- The raw accumulator state after folding a fragment stream is the graph of
the per-index specification entries over the first-occurrence key order. -/
theorem acc_state_eq (frags : List TCFrag) :
    frags.foldl accStep [] =
      (firstOccIdxs frags).map
        (fun i => (i, specEntry (frags.filter (fun f => f.index = i)))) := by
  induction frags using List.reverseRecOn with
  | nil => rfl
  | append_singleton fs f ih =>
    rw [List.foldl_append, List.foldl_cons, List.foldl_nil, ih]
    unfold accStep
    rw [lookup_map_graph]
    by_cases hmem : f.index ∈ firstOccIdxs fs
    · rw [if_pos hmem]
      simp only [Option.isSome_some, if_true]
      rw [accUpdate_map_graph f _ _ (nodup_firstOcc fs)]
      rw [firstOcc_concat, if_pos hmem]
      apply List.map_congr_left
      intro i hi
      by_cases hidx : i = f.index
      · subst hidx
        rw [if_pos rfl]
        have hne : fs.filter (fun g => g.index = f.index) ≠ [] := by
          obtain ⟨g, hg, hgi⟩ := mem_firstOcc.mp hmem
          intro hnil
          rw [List.filter_eq_nil_iff] at hnil
          exact hnil g hg (by simp [hgi])
        have hsing : List.filter (fun g => decide (g.index = f.index)) [f] = [f] := by simp
        rw [List.filter_append, hsing, specEntry_concat_ne _ _ hne]
      · rw [if_neg hidx]
        have hidx2 : ¬ f.index = i := fun he => hidx he.symm
        have hsing : List.filter (fun g => decide (g.index = i)) [f] = [] := by simp [hidx2]
        rw [List.filter_append, hsing, List.append_nil]
    · rw [if_neg hmem]
      simp only [Option.isSome_none, Bool.false_eq_true, if_false]
      have hL : (firstOccIdxs fs).map
            (fun i => (i, specEntry (fs.filter (fun g => g.index = i))))
            ++ [(f.index, { id := f.id, name := "", args := "" })] =
          ((firstOccIdxs fs) ++ [f.index]).map
            (fun i => (i, if i = f.index then { id := f.id, name := "", args := "" }
                          else specEntry (fs.filter (fun g => g.index = i)))) := by
        rw [List.map_append]
        congr 1
        · apply List.map_congr_left
          intro i hi
          have hne : i ≠ f.index := fun he => hmem (he ▸ hi)
          simp [hne]
        · simp
      rw [hL, accUpdate_map_graph f _ _ (by simp [List.nodup_append, nodup_firstOcc fs, hmem])]
      rw [firstOcc_concat, if_neg hmem]
      apply List.map_congr_left
      intro i hi
      by_cases hidx : i = f.index
      · subst hidx
        rw [if_pos rfl, if_pos rfl]
        have hfil : fs.filter (fun g => g.index = f.index) = [] := by
          rw [List.filter_eq_nil_iff]
          intro g hg
          simp only [decide_eq_true_eq]
          intro hgi
          exact hmem (mem_firstOcc.mpr ⟨g, hg, hgi⟩)
        have hsing : List.filter (fun g => decide (g.index = f.index)) [f] = [f] := by simp
        rw [List.filter_append, hsing, hfil, List.nil_append]
        rfl
      · rw [if_neg hidx, if_neg hidx]
        have hidx2 : ¬ f.index = i := fun he => hidx he.symm
        have hsing : List.filter (fun g => decide (g.index = i)) [f] = [] := by simp [hidx2]
        rw [List.filter_append, hsing, List.append_nil]

/-- Membership in an insertion-sort insert. -/
theorem mem_insNat (n : Nat) :
    ∀ (l : List Nat) (m : Nat), m ∈ insNat n l ↔ m = n ∨ m ∈ l := by
  intro l
  induction l with
  | nil => intro m; simp [insNat]
  | cons a l ih =>
    intro m
    unfold insNat
    by_cases h : a ≤ n
    · rw [if_pos h]
      rw [List.mem_cons, ih, List.mem_cons]
      tauto
    · rw [if_neg h]
      simp [List.mem_cons]

/-- Membership in the sort fold. -/
theorem mem_sortNatsAux (l : List Nat) :
    ∀ (acc : List Nat) (m : Nat),
      m ∈ l.foldl (fun a n => insNat n a) acc ↔ m ∈ acc ∨ m ∈ l := by
  induction l with
  | nil => intro acc m; simp
  | cons a l ih =>
    intro acc m
    rw [List.foldl_cons, ih, mem_insNat]
    rw [List.mem_cons]
    tauto

/-- `sortNats` preserves membership. -/
theorem mem_sortNats {l : List Nat} {m : Nat} : m ∈ sortNats l ↔ m ∈ l := by
  rw [sortNats, mem_sortNatsAux]
  simp

/-- Finalizing over keys that all have entries is a plain map. -/
theorem filterMap_lookup_graph (g : Nat → TCEntry) (L : List Nat) :
    ∀ l : List Nat, (∀ i ∈ l, i ∈ L) →
      l.filterMap (fun i => ((L.map (fun j => (j, g j))).lookup i).map (fun e => (i, e))) =
        l.map (fun i => (i, g i)) := by
  intro l
  induction l with
  | nil => intro _; rfl
  | cons a l ih =>
    intro hmem
    have hfa : Option.map (fun e => (a, e)) ((L.map (fun j => (j, g j))).lookup a)
        = some (a, g a) := by
      rw [lookup_map_graph, if_pos (hmem a (List.mem_cons_self a l))]
      rfl
    rw [List.filterMap_cons, hfa, List.map_cons,
        ih (fun i hi => hmem i (List.mem_cons_of_mem a hi))]

/-- Claim C7 (amended): the streaming accumulator keeps, per index, the LAST
non-empty id seen (each truthy id overwrites; the raw id of the first fragment
is kept only if no truthy id ever arrives), concatenates name and argument
pieces in arrival order, and produces the final list sorted by index — i.e.,
it equals the per-index gather-and-fold specification. -/
theorem c7_accumulator_amended (frags : List TCFrag) :
    accumulate frags = specAccumulate frags := by
  unfold accumulate specAccumulate accFinalize
  rw [acc_state_eq]
  have hfst : (((firstOccIdxs frags).map
      (fun i => (i, specEntry (frags.filter (fun f => f.index = i))))).map Prod.fst) =
      firstOccIdxs frags := by
    rw [List.map_map]
    rw [show (Prod.fst ∘ fun i => (i, specEntry (frags.filter (fun f => f.index = i)))) = id
        from rfl, List.map_id]
  rw [hfst]
  apply filterMap_lookup_graph
  intro i hi
  exact mem_sortNats.mp hi

/-- Claim C7 (counterexample): two fragments for index 0 with truthy ids
`"a"` then `"b"`: the accumulator keeps `"b"` (the id assignment overwrites on
every truthy id), while the claim's "first non-empty id wins" rule would keep
`"a"`; names and arguments concatenate as claimed. -/
theorem c7_first_id_cex :
    accumulate [(⟨0, some "a", some "f", some "x"⟩ : TCFrag),
                (⟨0, some "b", some "g", some "y"⟩ : TCFrag)]
      = [(0, ⟨some "b", "fg", "xy"⟩)] ∧
    firstTruthyId [(⟨0, some "a", some "f", some "x"⟩ : TCFrag),
                   (⟨0, some "b", some "g", some "y"⟩ : TCFrag)] = some "a" ∧
    (some "b" : Option String) ≠ some "a" := by
  refine ⟨rfl, rfl, by decide⟩


/-! ### Tag-stripping lemmas (for claim C6) -/

/-- A pattern is a prefix of itself extended by anything. -/
theorem subAt_append_self : ∀ (p l : List Char), subAt p (p ++ l) = true := by
  intro p
  induction p with
  | nil => intro l; rfl
  | cons c cs ih =>
    intro l
    simp only [List.cons_append, subAt, if_pos rfl]
    exact ih l

/-- A pattern mismatching on the first character is not a prefix. -/
theorem subAt_cons_ne {p c : Char} (ps cs : List Char) (h : ¬ p = c) :
    subAt (p :: ps) (c :: cs) = false := by
  simp only [subAt, if_neg h]

/-- A successful split consumes at least the pattern. -/
theorem splitFirst_some_length {pat : List Char} (hpat : pat ≠ []) :
    ∀ {l a b : List Char}, splitFirst pat l = some (a, b) → b.length < l.length := by
  intro l
  induction l with
  | nil =>
    intro a b h
    obtain ⟨p, ps, rfl⟩ : ∃ p ps, pat = p :: ps := by
      cases pat with
      | nil => exact absurd rfl hpat
      | cons p ps => exact ⟨p, ps, rfl⟩
    simp [splitFirst, subAt] at h
  | cons c rest ih =>
    intro a b h
    simp only [splitFirst] at h
    by_cases hs : subAt pat (c :: rest) = true
    · rw [if_pos hs] at h
      injection h with h
      injection h with h1 h2
      subst h2
      have hplen : 1 ≤ pat.length := by
        cases pat with
        | nil => exact absurd rfl hpat
        | cons _ _ => simp
      simp only [List.length_drop, List.length_cons]
      omega
    · rw [if_neg hs] at h
      cases hsp : splitFirst pat rest with
      | none => rw [hsp] at h; cases h
      | some ab =>
        obtain ⟨a2, b2⟩ := ab
        rw [hsp] at h
        injection h with h
        injection h with h1 h2
        subst h2
        have := ih hsp
        simp only [List.length_cons]
        omega

/-- An opening-tag match strictly shrinks the buffer. -/
theorem openAt_length : ∀ {s : List Char} {t : Tag} {after : List Char},
    openAt s = some (t, after) → after.length < s.length := by
  intro s t after h
  unfold openAt at h
  split at h
  · injection h with h
    injection h with h1 h2
    subst h2
    simp only [List.length_cons]
    omega
  · injection h with h
    injection h with h1 h2
    subst h2
    simp only [List.length_cons]
    omega
  · cases h

/-- Closing tags are never empty. -/
theorem closeTag_ne_nil (t : Tag) : closeTag t ≠ [] := by
  cases t <;> simp [closeTag]

/-- Closing tags start with `<`. -/
theorem closeTag_head (t : Tag) : ∃ ps, closeTag t = '<' :: ps := by
  cases t
  · exact ⟨"/thought>".data, rfl⟩
  · exact ⟨"/think>".data, rfl⟩

/-- The fuel of `dropThF` is irrelevant once it exceeds the input length. -/
theorem dropThF_fuel : ∀ (f1 : Nat) {f2 : Nat} {s : List Char},
    s.length < f1 → s.length < f2 → dropThF f1 s = dropThF f2 s := by
  intro f1
  induction f1 with
  | zero => intro f2 s h1 _; exact absurd h1 (Nat.not_lt_zero _)
  | succ n ih =>
    intro f2 s h1 h2
    cases f2 with
    | zero => exact absurd h2 (Nat.not_lt_zero _)
    | succ m =>
      cases hopen : openAt s with
      | none =>
        cases s with
        | nil => rfl
        | cons c rest =>
          simp only [dropThF, hopen]
          have hr1 : rest.length < n := by
            simp only [List.length_cons] at h1; omega
          have hr2 : rest.length < m := by
            simp only [List.length_cons] at h2; omega
          rw [ih hr1 hr2]
      | some pr =>
        obtain ⟨t, after⟩ := pr
        have hafter : after.length < s.length := openAt_length hopen
        cases hsplit : splitFirst (closeTag t) after with
        | none => simp only [dropThF, hopen, hsplit]
        | some ab =>
          obtain ⟨pre, rest⟩ := ab
          have hrest : rest.length < after.length :=
            splitFirst_some_length (closeTag_ne_nil t) hsplit
          simp only [dropThF, hopen, hsplit]
          exact ih (by omega) (by omega)

/-- Opening tags match where they are rendered. -/
theorem openAt_openTag (t : Tag) (l : List Char) : openAt (openTag t ++ l) = some (t, l) := by
  cases t <;> rfl

/-- No tag opens at a non-`<` character. -/
theorem openAt_cons_ne {c : Char} (l : List Char) (h : ¬ c = '<') :
    openAt (c :: l) = none := by
  unfold openAt
  split
  · rename_i heq
    injection heq with h1 _
    exact absurd h1 h
  · rename_i heq
    injection heq with h1 _
    exact absurd h1 h
  · rfl

/-- Splitting a `<`-free cons. -/
theorem noLt_cons {c : Char} {l : List Char} (h : noLt (c :: l) = true) :
    ¬ c = '<' ∧ noLt l = true := by
  simp only [noLt, decide_eq_true_eq, List.mem_cons, not_or] at h
  refine ⟨fun he => h.1 he.symm, ?_⟩
  simp only [noLt, decide_eq_true_eq]
  exact h.2

/-- Stripping walks over a tag-free character. -/
theorem dropTh_cons_ne (c : Char) (l : List Char) (h : ¬ c = '<') :
    dropTh (c :: l) = c :: dropTh l := by
  show dropThF ((c :: l).length + 1) (c :: l) = c :: dropThF (l.length + 1) l
  simp only [List.length_cons]
  simp only [dropThF, openAt_cons_ne l h]

/-- Stripping walks over a whole tag-free prefix. -/
theorem dropTh_append_noLt : ∀ (s r : List Char), noLt s = true →
    dropTh (s ++ r) = s ++ dropTh r := by
  intro s
  induction s with
  | nil => intro r _; rfl
  | cons c s ih =>
    intro r h
    obtain ⟨hc, hs⟩ := noLt_cons h
    rw [List.cons_append, dropTh_cons_ne c (s ++ r) hc, ih r hs, List.cons_append]

/-- A pattern matches at its own rendering site. -/
theorem subAt_cons_self (c : Char) (p l : List Char) :
    subAt (c :: p) (c :: (p ++ l)) = true :=
  subAt_append_self (c :: p) l

/-- First occurrence of a `<`-headed pattern after a `<`-free prefix. -/
theorem splitFirst_boundary (ps r : List Char) :
    ∀ m : List Char, noLt m = true →
      splitFirst ('<' :: ps) (m ++ (('<' :: ps) ++ r)) = some (m, r) := by
  intro m
  induction m with
  | nil =>
    intro _
    rw [List.nil_append]
    simp only [List.cons_append, splitFirst, List.append_eq]
    rw [if_pos (subAt_cons_self '<' ps r)]
    have hdrop : List.drop ('<' :: ps).length ('<' :: (ps ++ r)) = r := by
      simp only [List.length_cons, List.drop_succ_cons]
      exact List.drop_left ps r
    simp only [List.append_eq] at hdrop
    rw [hdrop]
  | cons c m ih =>
    intro h
    obtain ⟨hc, hm⟩ := noLt_cons h
    simp only [List.cons_append, splitFirst, List.append_eq]
    have hsub : subAt ('<' :: ps) (c :: (m ++ ('<' :: (ps ++ r)))) = false :=
      subAt_cons_ne ps (m ++ ('<' :: (ps ++ r))) (fun he => hc he.symm)
    simp only [List.append_eq] at hsub
    rw [hsub]
    simp only [Bool.false_eq_true, if_false]
    have hih := ih hm
    simp only [List.cons_append, List.append_eq] at hih
    rw [hih]

/-- No occurrence of a `<`-headed pattern inside a `<`-free buffer. -/
theorem splitFirst_none_noLt (ps : List Char) :
    ∀ l : List Char, noLt l = true → splitFirst ('<' :: ps) l = none := by
  intro l
  induction l with
  | nil => intro _; rfl
  | cons c l ih =>
    intro h
    obtain ⟨hc, hl⟩ := noLt_cons h
    simp only [splitFirst]
    rw [subAt_cons_ne (c := c) ps l (fun he => hc he.symm)]
    simp only [Bool.false_eq_true, if_false]
    rw [ih hl]

/-- Stripping removes a closed thought block entirely. -/
theorem dropTh_block_closed (t : Tag) (int r : List Char) (h : noLt int = true) :
    dropTh (openTag t ++ (int ++ (closeTag t ++ r))) = dropTh r := by
  obtain ⟨ps, hps⟩ := closeTag_head t
  have hopen := openAt_openTag t (int ++ (closeTag t ++ r))
  have hsplit : splitFirst (closeTag t) (int ++ (closeTag t ++ r)) = some (int, r) := by
    rw [hps]
    exact splitFirst_boundary ps r int h
  show dropThF ((openTag t ++ (int ++ (closeTag t ++ r))).length + 1)
      (openTag t ++ (int ++ (closeTag t ++ r))) = dropTh r
  simp only [dropThF, hopen, hsplit]
  apply dropThF_fuel
  · simp only [List.length_append]
    have h4 : 1 ≤ (openTag t).length := by cases t <;> simp [openTag]
    omega
  · omega

/-- Stripping an unterminated block keeps only a final newline. -/
theorem dropTh_block_unclosed (t : Tag) (int : List Char) (h : noLt int = true) :
    dropTh (openTag t ++ int) = if endsNL int then ['\n'] else [] := by
  obtain ⟨ps, hps⟩ := closeTag_head t
  have hopen := openAt_openTag t int
  have hsplit : splitFirst (closeTag t) int = none := by
    rw [hps]
    exact splitFirst_none_noLt ps int h
  show dropThF ((openTag t ++ int).length + 1) (openTag t ++ int)
      = if endsNL int then ['\n'] else []
  simp only [dropThF, hopen, hsplit]

/-- One segment renders at the head. -/
theorem renderSegs_cons (x : Seg) (rest : List Seg) :
    renderSegs (x :: rest) = renderSeg x ++ renderSegs rest := rfl

/-- The leftover of the stripped render is empty or a single newline. -/
theorem tailNL_cases : ∀ segs : List Seg, tailNL segs = [] ∨ tailNL segs = ['\n'] := by
  intro segs
  induction segs with
  | nil => exact Or.inl rfl
  | cons x rest ih =>
    cases x with
    | plain s =>
      cases rest with
      | nil => exact Or.inl rfl
      | cons y ys => exact ih
    | block t i closed =>
      cases closed with
      | true =>
        cases rest with
        | nil => exact Or.inl rfl
        | cons y ys => exact ih
      | false =>
        cases rest with
        | nil =>
          unfold tailNL
          by_cases h : endsNL i = true
          · rw [if_pos h]; exact Or.inr rfl
          · rw [if_neg h]; exact Or.inl rfl
        | cons y ys => exact ih

/-- Stripping a well-formed structured render leaves exactly the plain
segments (plus the `$`-protected final newline of an unterminated block). -/
theorem dropTh_render : ∀ segs : List Seg, wfSegs segs = true →
    dropTh (renderSegs segs) = concatPlains segs ++ tailNL segs := by
  intro segs
  induction segs with
  | nil => intro _; rfl
  | cons x rest ih =>
    intro hwf
    cases x with
    | plain s =>
      have hparts : noLt s = true ∧ wfSegs rest = true := by
        cases rest with
        | nil =>
          simp only [wfSegs, Bool.and_eq_true] at hwf
          exact ⟨hwf.1, rfl⟩
        | cons y ys =>
          simp only [wfSegs, Bool.and_eq_true] at hwf
          exact hwf
      rw [renderSegs_cons]
      show dropTh (s ++ renderSegs rest) =
        concatPlains (Seg.plain s :: rest) ++ tailNL (Seg.plain s :: rest)
      rw [dropTh_append_noLt s _ hparts.1, ih hparts.2]
      show s ++ (concatPlains rest ++ tailNL rest) =
        (s ++ concatPlains rest) ++ tailNL (Seg.plain s :: rest)
      have htl : tailNL (Seg.plain s :: rest) = tailNL rest := by
        cases rest with
        | nil => rfl
        | cons y ys => rfl
      rw [htl, List.append_assoc]
    | block t i closed =>
      cases closed with
      | true =>
        have hparts : noLt i = true ∧ wfSegs rest = true := by
          cases rest with
          | nil =>
            simp only [wfSegs, Bool.and_eq_true] at hwf
            exact ⟨hwf.1, rfl⟩
          | cons y ys =>
            simp only [wfSegs, Bool.and_eq_true] at hwf
            exact hwf
        rw [renderSegs_cons]
        show dropTh ((openTag t ++ i ++ closeTag t) ++ renderSegs rest) = _
        have hassoc : (openTag t ++ i ++ closeTag t) ++ renderSegs rest =
            openTag t ++ (i ++ (closeTag t ++ renderSegs rest)) := by
          simp [List.append_assoc]
        rw [hassoc, dropTh_block_closed t i (renderSegs rest) hparts.1, ih hparts.2]
        have htl : tailNL (Seg.block t i true :: rest) = tailNL rest := by
          cases rest with
          | nil => rfl
          | cons y ys => rfl
        rw [htl]
        rfl
      | false =>
        cases rest with
        | cons y ys =>
          simp only [wfSegs] at hwf
          exact (Bool.false_ne_true hwf).elim
        | nil =>
          have hin : noLt i = true := by
            simp only [wfSegs] at hwf
            exact hwf
          rw [renderSegs_cons]
          show dropTh ((openTag t ++ i) ++ renderSegs []) = _
          rw [show renderSegs [] = [] from rfl, List.append_nil,
              dropTh_block_unclosed t i hin]
          show (if endsNL i then ['\n'] else []) =
            concatPlains [Seg.block t i false] ++ tailNL [Seg.block t i false]
          show (if endsNL i then ['\n'] else []) = [] ++ tailNL [Seg.block t i false]
          rw [List.nil_append]
          rfl

/-- Python `strip` ignores a final newline. -/
theorem pyStrip_append_nl (x : List Char) : pyStrip (x ++ ['\n']) = pyStrip x := by
  unfold pyStrip
  rw [List.dropWhile_append]
  by_cases h : (x.dropWhile isPyWs).isEmpty = true
  · rw [if_pos h]
    have hx : x.dropWhile isPyWs = [] := by
      cases hc : x.dropWhile isPyWs with
      | nil => rfl
      | cons a l => rw [hc] at h; simp [List.isEmpty] at h
    rw [hx]
    rfl
  · rw [if_neg h]
    rw [List.reverse_append]
    show (List.dropWhile isPyWs (['\n'].reverse ++ (x.dropWhile isPyWs).reverse)).reverse = _
    show (List.dropWhile isPyWs ('\n' :: (x.dropWhile isPyWs).reverse)).reverse = _
    rw [List.dropWhile_cons_of_pos (by rfl)]

/-- `pyStrip` ignores the tail leftover. -/
theorem pyStrip_append_tailNL (x : List Char) (segs : List Seg) :
    pyStrip (x ++ tailNL segs) = pyStrip x := by
  cases tailNL_cases segs with
  | inl h => rw [h, List.append_nil]
  | inr h => rw [h, pyStrip_append_nl]

/-- Claim C6 (counterexample): at stream end the assistant message stored in
history holds the raw `full_content` with its thought tags — not the stripped
`cleanContent` the claim asserts (line 412 stores `full_content`; the comment
at lines 387-389 keeps the tags deliberately). -/
theorem c6_history_content_cex :
    msgContent (mkAssistantMsg "<thought>x</thought>hello" []) = "<thought>x</thought>hello" ∧
    cleanContent "<thought>x</thought>hello" = "hello" ∧
    msgContent (mkAssistantMsg "<thought>x</thought>hello" [])
      ≠ cleanContent "<thought>x</thought>hello" := by
  exact ⟨rfl, by decide, by decide⟩

/-- Claim C6 (amended): at stream end all thought tags (open, with or without
a matching close) are stripped from `fullContent` to produce `cleanContent` —
on any well-formed mix of plain text and thought blocks the stripped text is
exactly the plain text, `strip()`ped — but the assistant message appended to
history keeps the raw `fullContent`, tags included; `cleanContent` is only
what is emitted to the user. -/
theorem c6_strip_amended (segs : List Seg) (tcs : List ToolCallRec)
    (hwf : wfSegs segs = true) :
    msgContent (mkAssistantMsg (String.mk (renderSegs segs)) tcs)
      = String.mk (renderSegs segs) ∧
    cleanContent (String.mk (renderSegs segs))
      = String.mk (pyStrip (concatPlains segs)) := by
  refine ⟨rfl, ?_⟩
  show pyStripStr (String.mk (dropTh (String.mk (renderSegs segs)).data)) = _
  show pyStripStr (String.mk (dropTh (renderSegs segs))) = _
  rw [dropTh_render segs hwf]
  show String.mk (pyStrip (concatPlains segs ++ tailNL segs)) = _
  rw [pyStrip_append_tailNL]

/-- Claim C6 (witness): the amended claim evaluated on
`"Hola <thought>why</thought>mundo!"`: history keeps the tags, the user sees
`"Hola mundo!"`. -/
theorem c6_strip_amended_witness :
    msgContent (mkAssistantMsg (String.mk (renderSegs
        [Seg.plain "Hola ".data, Seg.block Tag.thought "why".data true, Seg.plain "mundo!".data])) [])
      = String.mk (renderSegs
        [Seg.plain "Hola ".data, Seg.block Tag.thought "why".data true, Seg.plain "mundo!".data]) ∧
    cleanContent (String.mk (renderSegs
        [Seg.plain "Hola ".data, Seg.block Tag.thought "why".data true, Seg.plain "mundo!".data]))
      = String.mk (pyStrip (concatPlains
        [Seg.plain "Hola ".data, Seg.block Tag.thought "why".data true, Seg.plain "mundo!".data])) ∧
    String.mk (renderSegs
        [Seg.plain "Hola ".data, Seg.block Tag.thought "why".data true, Seg.plain "mundo!".data])
      = "Hola <thought>why</thought>mundo!" ∧
    String.mk (pyStrip (concatPlains
        [Seg.plain "Hola ".data, Seg.block Tag.thought "why".data true, Seg.plain "mundo!".data]))
      = "Hola mundo!" := by
  have h := c6_strip_amended
    [Seg.plain "Hola ".data, Seg.block Tag.thought "why".data true, Seg.plain "mundo!".data]
    [] (by decide)
  exact ⟨h.1, h.2, by decide, by decide⟩


/-! ### Permission gate (claim C3) -/

/-- Claim C3: a sensitive tool call is blocked — queued in `pendingHashes`
with the synthetic instructional result and not executed — exactly when its
exact-argument hash is not already approved and its tool name is not already
session-trusted; in the opposite case the call executes and the pending set is
untouched, so an approved hash or trusted name is never re-queued for an
identical call.  The gate itself never changes `approvedHashes` or
`trustedTools`. -/
theorem c3_permission_gate (os : Oracles) (st : AgentState) (tc : ToolCallRec)
    (hsens : os.isSens tc.name (parseArgsV os.loads tc.arguments) = true) :
    ((¬ toolHash tc.name (parseArgsV os.loads tc.arguments) ∈ st.approved ∧
      ¬ tc.name ∈ st.trusted) →
      (gateExecStep os st tc).executed = [] ∧
      (gateExecStep os st tc).st.pending =
        insertNew st.pending (toolHash tc.name (parseArgsV os.loads tc.arguments)) ∧
      toolHash tc.name (parseArgsV os.loads tc.arguments) ∈ (gateExecStep os st tc).st.pending ∧
      (gateExecStep os st tc).events =
        [Event.thought ("Executing process: " ++ tc.name ++ "..."),
         Event.toolCall tc.name (parseArgsV os.loads tc.arguments),
         Event.thought ("🔐 Permission required for " ++ tc.name ++ ". Asking user..."),
         Event.toolResult tc.name (.jstr synthPermissionResult)]) ∧
    ((toolHash tc.name (parseArgsV os.loads tc.arguments) ∈ st.approved ∨
      tc.name ∈ st.trusted) →
      (gateExecStep os st tc).executed = [(tc.name, parseArgsV os.loads tc.arguments)] ∧
      (gateExecStep os st tc).st.pending = st.pending) ∧
    (gateExecStep os st tc).st.approved = st.approved ∧
    (gateExecStep os st tc).st.trusted = st.trusted := by
  refine ⟨?_, ?_, ?_, ?_⟩
  · rintro ⟨hna, hnt⟩
    have hcond : os.isSens tc.name (parseArgsV os.loads tc.arguments) = true ∧
        ¬ tc.name ∈ st.trusted ∧
        ¬ toolHash tc.name (parseArgsV os.loads tc.arguments) ∈ st.approved :=
      ⟨hsens, hnt, hna⟩
    unfold gateExecStep
    rw [if_pos hcond]
    exact ⟨rfl, rfl, mem_insertNew.mpr (Or.inr rfl), rfl⟩
  · intro hor
    have hcond : ¬ (os.isSens tc.name (parseArgsV os.loads tc.arguments) = true ∧
        ¬ tc.name ∈ st.trusted ∧
        ¬ toolHash tc.name (parseArgsV os.loads tc.arguments) ∈ st.approved) := by
      rintro ⟨_, hnt, hna⟩
      cases hor with
      | inl ha => exact hna ha
      | inr ht => exact hnt ht
    unfold gateExecStep
    rw [if_neg hcond]
    cases hct : os.callTool tc.name (parseArgsV os.loads tc.arguments) with
    | ok v => exact ⟨rfl, rfl⟩
    | error e => exact ⟨rfl, rfl⟩
  · unfold gateExecStep
    by_cases hcond : os.isSens tc.name (parseArgsV os.loads tc.arguments) = true ∧
        ¬ tc.name ∈ st.trusted ∧
        ¬ toolHash tc.name (parseArgsV os.loads tc.arguments) ∈ st.approved
    · rw [if_pos hcond]
    · rw [if_neg hcond]
      cases os.callTool tc.name (parseArgsV os.loads tc.arguments) <;> rfl
  · unfold gateExecStep
    by_cases hcond : os.isSens tc.name (parseArgsV os.loads tc.arguments) = true ∧
        ¬ tc.name ∈ st.trusted ∧
        ¬ toolHash tc.name (parseArgsV os.loads tc.arguments) ∈ st.approved
    · rw [if_pos hcond]
    · rw [if_neg hcond]
      cases os.callTool tc.name (parseArgsV os.loads tc.arguments) <;> rfl

/-- Claim C3 (witness): a sensitive `bash("rm -rf /")` call with nothing
approved is blocked and queued; the identical call with `"bash"` trusted
executes and leaves the pending set untouched. -/
theorem c3_permission_gate_witness :
    (gateExecStep
        (⟨fun _ => none, fun n _ => n = "bash", fun _ _ => .ok (.jstr "done")⟩ : Oracles)
        (⟨[], [], [], [], [], ⟨0, none, false⟩, 0, []⟩ : AgentState)
        (⟨some "1", "bash", .jobj [("command", .jstr "rm -rf /")]⟩ : ToolCallRec)).executed = [] ∧
    toolHash "bash" (.jobj [("command", .jstr "rm -rf /")]) ∈
      (gateExecStep
        (⟨fun _ => none, fun n _ => n = "bash", fun _ _ => .ok (.jstr "done")⟩ : Oracles)
        (⟨[], [], [], [], [], ⟨0, none, false⟩, 0, []⟩ : AgentState)
        (⟨some "1", "bash", .jobj [("command", .jstr "rm -rf /")]⟩ : ToolCallRec)).st.pending ∧
    (gateExecStep
        (⟨fun _ => none, fun n _ => n = "bash", fun _ _ => .ok (.jstr "done")⟩ : Oracles)
        (⟨[], [], ["bash"], [], [], ⟨0, none, false⟩, 0, []⟩ : AgentState)
        (⟨some "1", "bash", .jobj [("command", .jstr "rm -rf /")]⟩ : ToolCallRec)).executed
      = [("bash", .jobj [("command", .jstr "rm -rf /")])] ∧
    (gateExecStep
        (⟨fun _ => none, fun n _ => n = "bash", fun _ _ => .ok (.jstr "done")⟩ : Oracles)
        (⟨[], [], ["bash"], [], [], ⟨0, none, false⟩, 0, []⟩ : AgentState)
        (⟨some "1", "bash", .jobj [("command", .jstr "rm -rf /")]⟩ : ToolCallRec)).st.pending = [] := by
  have h1 := c3_permission_gate
    (⟨fun _ => none, fun n _ => n = "bash", fun _ _ => .ok (.jstr "done")⟩ : Oracles)
    (⟨[], [], [], [], [], ⟨0, none, false⟩, 0, []⟩ : AgentState)
    (⟨some "1", "bash", .jobj [("command", .jstr "rm -rf /")]⟩ : ToolCallRec)
    (by decide)
  have h2 := c3_permission_gate
    (⟨fun _ => none, fun n _ => n = "bash", fun _ _ => .ok (.jstr "done")⟩ : Oracles)
    (⟨[], [], ["bash"], [], [], ⟨0, none, false⟩, 0, []⟩ : AgentState)
    (⟨some "1", "bash", .jobj [("command", .jstr "rm -rf /")]⟩ : ToolCallRec)
    (by decide)
  have hb1 := h1.1 ⟨by decide, by decide⟩
  have hb2 := h2.2.1 (Or.inr (by decide))
  exact ⟨hb1.1, hb1.2.2.1, hb2.1, hb2.2⟩


/-! ### Plan-priority rule (claim C1) -/

/-- The only tool-action value that counts as `"add"`. -/
theorem isAddVal_some_eq {v : JVal} (h : isAddVal (some v) = true) : v = .jstr "add" := by
  cases v <;> simp [isAddVal] at h ⊢
  exact h

/-- `get_tool_action` and the robust parser agree on the `"add"` action: if
the planning detector saw `action == "add"`, the parsed arguments dict maps
`"action"` to `"add"` too (both parse the same way on every path on which
`get_tool_action` returns a value). -/
theorem getToolAction_add_parse (loads : String → Option JVal) (a : JVal)
    (h : isAddVal (getToolAction loads a) = true) :
    dget (parseArgsV loads a) "action" .jnull = .jstr "add" := by
  cases a with
  | jstr s =>
    cases hl : loads s with
    | none =>
      simp only [getToolAction, hl] at h
      simp [isAddVal] at h
    | some v =>
      simp only [getToolAction, hl] at h
      cases v with
      | jstr s2 =>
        cases hl2 : loads s2 with
        | none =>
          simp only [hl2] at h
          simp [isAddVal] at h
        | some v2 =>
          simp only [hl2] at h
          cases v2 with
          | jobj kvs =>
            simp only [parseArgsV, hl, hl2, dget]
            exact isAddVal_some_eq h
          | jnull => simp [isAddVal] at h
          | jbool b => simp [isAddVal] at h
          | jnum n => simp [isAddVal] at h
          | jstr s3 => simp [isAddVal] at h
          | jarr xs => simp [isAddVal] at h
      | jobj kvs =>
        simp only [parseArgsV, hl, dget]
        exact isAddVal_some_eq h
      | jnull => simp [isAddVal] at h
      | jbool b => simp [isAddVal] at h
      | jnum n => simp [isAddVal] at h
      | jarr xs => simp [isAddVal] at h
  | jobj kvs =>
    simp only [parseArgsV, dget]
    exact isAddVal_some_eq (by simpa [getToolAction] using h)
  | jnull => simp [getToolAction, isAddVal] at h
  | jbool b => simp [getToolAction, isAddVal] at h
  | jnum n => simp [getToolAction, isAddVal] at h
  | jarr xs => simp [getToolAction, isAddVal] at h

/-- A `manage_tasks` call whose parsed action is `"add"` and whose `tasks`
argument is an array: the full planning step — extend, render, emit
`task_update`, approval message and tool result, append the tool message, and
return from `run_agent`. -/
theorem manageTasksStep_add (os : Oracles) (st : AgentState) (tc : ToolCallRec)
    (ts : List JVal) (fp : String)
    (ha : dget (parseArgsV os.loads tc.arguments) "action" .jnull = .jstr "add")
    (h5 : dget (parseArgsV os.loads tc.arguments) "tasks" (.jarr []) = .jarr ts)
    (h6 : formatPlan (st.tasks ++ ts) = .ok fp) :
    manageTasksStep os st tc =
      { events := [Event.taskUpdate (st.tasks ++ ts),
                   Event.message (planApprovalMsg fp),
                   Event.toolResult "manage_tasks" (tasksResultVal (.jstr "add") fp)],
        st := { st with
                  tasks := st.tasks ++ ts,
                  history := st.history ++ [Msg.tool tc.id "manage_tasks"
                    (jsonDumps false (tasksResultVal (.jstr "add") fp))] },
        executed := [], exit := .ret } := by
  have happly : applyTasksAction st.tasks (parseArgsV os.loads tc.arguments)
      = .ok (st.tasks ++ ts) := by
    unfold applyTasksAction
    rw [ha]
    simp only [h5]
    rw [if_pos trivial]
    rfl
  simp only [manageTasksStep, ha, happly, h6]
  rfl

/-- One active planning call: `runCalls` performs it and stops with `ret`. -/
theorem runCalls_plan (os : Oracles) (st : AgentState) (p : ToolCallRec)
    (ts : List JVal) (fp : String)
    (hname : p.name = "manage_tasks")
    (ha : dget (parseArgsV os.loads p.arguments) "action" .jnull = .jstr "add")
    (h5 : dget (parseArgsV os.loads p.arguments) "tasks" (.jarr []) = .jarr ts)
    (h6 : formatPlan (st.tasks ++ ts) = .ok fp) :
    runCalls os st [p] =
      { events := [Event.taskUpdate (st.tasks ++ ts),
                   Event.message (planApprovalMsg fp),
                   Event.toolResult "manage_tasks" (tasksResultVal (.jstr "add") fp)],
        st := { st with
                  tasks := st.tasks ++ ts,
                  history := st.history ++ [Msg.tool p.id "manage_tasks"
                    (jsonDumps false (tasksResultVal (.jstr "add") fp))] },
        executed := [], exit := .ret } := by
  simp only [runCalls, execOneCall, hname, if_pos,
    manageTasksStep_add os st p ts fp ha h5 h6]


/-- A turn that reaches tool processing with a planning call present: the
whole turn reduces to the planning step alone. -/
theorem processTurn_plan (os : Oracles) (turnIdx : Nat) (st : AgentState)
    (full : String) (tcs : List ToolCallRec) (p : ToolCallRec) (ts : List JVal) (fp : String)
    (h1 : tcs.find? (isPlanningCall os.loads) = some p)
    (h2 : tcs ≠ [])
    (h3 : (detectLoop st.loopSt (cleanContent full) tcs.length).2 = false)
    (h4 : questionCheck (cleanContent full) 400 = false)
    (h5 : dget (parseArgsV os.loads p.arguments) "tasks" (.jarr []) = .jarr ts)
    (h6 : formatPlan (st.tasks ++ ts) = .ok fp) :
    processTurn os turnIdx st (.data full tcs) =
      { events := (if cleanContent full ≠ "" then [Event.message (cleanContent full)] else [])
          ++ [Event.taskUpdate (st.tasks ++ ts),
              Event.message (planApprovalMsg fp),
              Event.toolResult "manage_tasks" (tasksResultVal (.jstr "add") fp)],
        st := { st with
                  tasks := st.tasks ++ ts,
                  history := st.history ++ [mkAssistantMsg full tcs,
                    Msg.tool p.id "manage_tasks"
                      (jsonDumps false (tasksResultVal (.jstr "add") fp))],
                  loopSt := { (detectLoop st.loopSt (cleanContent full) tcs.length).1 with count := 0 },
                  narrationRetries := 0 },
        executed := [], outcome := .ret } := by
  have hfind : isPlanningCall os.loads p = true := List.find?_some h1
  have hpair : p.name = "manage_tasks" ∧ isAddVal (getToolAction os.loads p.arguments) = true := by
    simpa [isPlanningCall, decide_eq_true_eq] using hfind
  have ha := getToolAction_add_parse os.loads p.arguments hpair.2
  cases tcs with
  | nil => exact absurd rfl h2
  | cons tc0 tcs0 =>
    have h3s : (detectLoop st.loopSt (cleanContent full) (tcs0.length + 1)).2 = false := h3
    simp only [processTurn]
    rw [if_neg (by simp [h3s])]
    rw [if_neg (by simp [h4])]
    simp only [toolPhase, h1]
    rw [runCalls_plan os
        { tasks := st.tasks, approved := st.approved, trusted := st.trusted,
          pending := st.pending,
          history := st.history ++ [mkAssistantMsg full (tc0 :: tcs0)],
          loopSt :=
            { count := 0,
              lastHash := (detectLoop st.loopSt (cleanContent full) (tc0 :: tcs0).length).1.lastHash,
              loopDetected := (detectLoop st.loopSt (cleanContent full) (tc0 :: tcs0).length).1.loopDetected },
          narrationRetries := 0, lessons := st.lessons } p ts fp hpair.1 ha h5 h6]
    simp [List.append_assoc]

/-- Claim C1: when a turn whose decoded tool calls include a `manage_tasks`
`action="add"` planning call (alongside any other calls) reaches tool
processing — loop detection did not fire and the content is not a short
trailing question — the orchestrator processes only the planning call and
discards all others: no external tool is executed, the task list is extended
with the new tasks, a `task_update` event and then the approval message are
emitted, the planning call's tool result is appended to history, and the
entire multi-turn loop terminates (`run_agent` returns: the rest of the
script is never consumed, the loop exits as `returned`, and skips the
end-of-loop memory commit). -/
theorem c1_plan_priority (os : Oracles) (turnIdx : Nat) (st : AgentState)
    (full : String) (tcs : List ToolCallRec) (p : ToolCallRec) (ts : List JVal) (fp : String)
    (h1 : tcs.find? (isPlanningCall os.loads) = some p)
    (h2 : 2 ≤ tcs.length)
    (h3 : (detectLoop st.loopSt (cleanContent full) tcs.length).2 = false)
    (h4 : questionCheck (cleanContent full) 400 = false)
    (h5 : dget (parseArgsV os.loads p.arguments) "tasks" (.jarr []) = .jarr ts)
    (h6 : formatPlan (st.tasks ++ ts) = .ok fp) :
    (processTurn os turnIdx st (.data full tcs)).outcome = .ret ∧
    (processTurn os turnIdx st (.data full tcs)).executed = [] ∧
    (processTurn os turnIdx st (.data full tcs)).st.tasks = st.tasks ++ ts ∧
    (processTurn os turnIdx st (.data full tcs)).events =
      (if cleanContent full ≠ "" then [Event.message (cleanContent full)] else [])
        ++ [Event.taskUpdate (st.tasks ++ ts), Event.message (planApprovalMsg fp),
            Event.toolResult "manage_tasks" (tasksResultVal (.jstr "add") fp)] ∧
    (processTurn os turnIdx st (.data full tcs)).st.history =
      st.history ++ [mkAssistantMsg full tcs,
        Msg.tool p.id "manage_tasks" (jsonDumps false (tasksResultVal (.jstr "add") fp))] ∧
    (∀ rest, runLoop os turnIdx st (.data full tcs :: rest)
      = runLoop os turnIdx st [.data full tcs]) ∧
    (∀ rest, turnIdx < maxTurns →
      (runLoop os turnIdx st (.data full tcs :: rest)).exit = .returned ∧
      (runLoop os turnIdx st (.data full tcs :: rest)).memoryCalls = 0 ∧
      (runLoop os turnIdx st (.data full tcs :: rest)).executed = []) := by
  have hne : tcs ≠ [] := by
    intro he
    rw [he] at h2
    exact absurd h2 (by decide)
  have hproc := processTurn_plan os turnIdx st full tcs p ts fp h1 hne h3 h4 h5 h6
  refine ⟨by rw [hproc], by rw [hproc], by rw [hproc], by rw [hproc], by rw [hproc], ?_, ?_⟩
  · intro rest
    by_cases hlim : maxTurns ≤ turnIdx
    · simp only [runLoop, if_pos hlim]
    · simp only [runLoop, if_neg hlim, hproc]
  · intro rest hlt
    have hlim : ¬ maxTurns ≤ turnIdx := by omega
    simp [runLoop, if_neg hlim, hproc]

/-- Claim C1 (witness): a turn carrying `bash` plus a `manage_tasks` add of
one task: only the plan is processed, the `bash` call is never executed, the
task list gains the task, and the loop over a two-turn script returns after
the first turn with no memory commit. -/
theorem c1_plan_priority_witness :
    (processTurn
      (⟨fun _ => none, fun _ _ => false, fun _ _ => .ok (.jstr "done")⟩ : Oracles) 0
      (⟨[], [], [], [], [], ⟨0, none, false⟩, 0, []⟩ : AgentState)
      (.data "" [(⟨some "2", "bash", .jobj [("command", .jstr "ls")]⟩ : ToolCallRec),
                 (⟨some "1", "manage_tasks",
                   .jobj [("action", .jstr "add"),
                          ("tasks", .jarr [.jobj [("desc", .jstr "t1"), ("status", .jstr "todo")]])]⟩ : ToolCallRec)])).outcome
      = .ret ∧
    (processTurn
      (⟨fun _ => none, fun _ _ => false, fun _ _ => .ok (.jstr "done")⟩ : Oracles) 0
      (⟨[], [], [], [], [], ⟨0, none, false⟩, 0, []⟩ : AgentState)
      (.data "" [(⟨some "2", "bash", .jobj [("command", .jstr "ls")]⟩ : ToolCallRec),
                 (⟨some "1", "manage_tasks",
                   .jobj [("action", .jstr "add"),
                          ("tasks", .jarr [.jobj [("desc", .jstr "t1"), ("status", .jstr "todo")]])]⟩ : ToolCallRec)])).executed
      = [] ∧
    (processTurn
      (⟨fun _ => none, fun _ _ => false, fun _ _ => .ok (.jstr "done")⟩ : Oracles) 0
      (⟨[], [], [], [], [], ⟨0, none, false⟩, 0, []⟩ : AgentState)
      (.data "" [(⟨some "2", "bash", .jobj [("command", .jstr "ls")]⟩ : ToolCallRec),
                 (⟨some "1", "manage_tasks",
                   .jobj [("action", .jstr "add"),
                          ("tasks", .jarr [.jobj [("desc", .jstr "t1"), ("status", .jstr "todo")]])]⟩ : ToolCallRec)])).st.tasks
      = [.jobj [("desc", .jstr "t1"), ("status", .jstr "todo")]] ∧
    (runLoop
      (⟨fun _ => none, fun _ _ => false, fun _ _ => .ok (.jstr "done")⟩ : Oracles) 0
      (⟨[], [], [], [], [], ⟨0, none, false⟩, 0, []⟩ : AgentState)
      [.data "" [(⟨some "2", "bash", .jobj [("command", .jstr "ls")]⟩ : ToolCallRec),
                 (⟨some "1", "manage_tasks",
                   .jobj [("action", .jstr "add"),
                          ("tasks", .jarr [.jobj [("desc", .jstr "t1"), ("status", .jstr "todo")]])]⟩ : ToolCallRec)],
       .data "leftover" []]).exit = .returned ∧
    (runLoop
      (⟨fun _ => none, fun _ _ => false, fun _ _ => .ok (.jstr "done")⟩ : Oracles) 0
      (⟨[], [], [], [], [], ⟨0, none, false⟩, 0, []⟩ : AgentState)
      [.data "" [(⟨some "2", "bash", .jobj [("command", .jstr "ls")]⟩ : ToolCallRec),
                 (⟨some "1", "manage_tasks",
                   .jobj [("action", .jstr "add"),
                          ("tasks", .jarr [.jobj [("desc", .jstr "t1"), ("status", .jstr "todo")]])]⟩ : ToolCallRec)],
       .data "leftover" []]).memoryCalls = 0 := by
  have h := c1_plan_priority
    (⟨fun _ => none, fun _ _ => false, fun _ _ => .ok (.jstr "done")⟩ : Oracles) 0
    (⟨[], [], [], [], [], ⟨0, none, false⟩, 0, []⟩ : AgentState)
    "" [(⟨some "2", "bash", .jobj [("command", .jstr "ls")]⟩ : ToolCallRec),
        (⟨some "1", "manage_tasks",
          .jobj [("action", .jstr "add"),
                 ("tasks", .jarr [.jobj [("desc", .jstr "t1"), ("status", .jstr "todo")]])]⟩ : ToolCallRec)]
    (⟨some "1", "manage_tasks",
      .jobj [("action", .jstr "add"),
             ("tasks", .jarr [.jobj [("desc", .jstr "t1"), ("status", .jstr "todo")]])]⟩ : ToolCallRec)
    [.jobj [("desc", .jstr "t1"), ("status", .jstr "todo")]]
    "\n---\n\n## 📋 TASK PLAN\n\n---\n\n| # | Status | Task |\n|---|--------|------|\n| 1 | ⏳ todo | t1 |\n\n---\n"
    rfl (by decide) rfl rfl rfl rfl
  have h7 := h.2.2.2.2.2.2 [.data "leftover" []] (by decide)
  exact ⟨h.1, h.2.1, h.2.2.1, h7.1, h7.2.1⟩


/-! ### Memory commit (claim C2) -/

/-- The multi-turn loop commits to memory exactly once when it ends by
`break` or exhaustion, and not at all when it ends via the plan-pending
`return` or a propagating exception. -/
theorem runLoop_memory (os : Oracles) :
    ∀ (script : List TurnIn) (turnIdx : Nat) (st : AgentState),
      (runLoop os turnIdx st script).memoryCalls ≤ 1 ∧
      ((runLoop os turnIdx st script).memoryCalls = 1 ↔
        (runLoop os turnIdx st script).exit = .finished) := by
  intro script
  induction script with
  | nil =>
    intro turnIdx st
    exact ⟨Nat.le_refl 1, ⟨fun _ => rfl, fun _ => rfl⟩⟩
  | cons t rest ih =>
    intro turnIdx st
    by_cases hlim : maxTurns ≤ turnIdx
    · simp only [runLoop, if_pos hlim]
      refine ⟨Nat.le_refl 1, ?_⟩
      simp
    · simp only [runLoop, if_neg hlim]
      cases hoc : (processTurn os turnIdx st t).outcome with
      | contin =>
        have hih := ih (turnIdx + 1) (processTurn os turnIdx st t).st
        exact ⟨hih.1, hih.2⟩
      | brk => exact ⟨Nat.le_refl 1, ⟨fun _ => rfl, fun _ => rfl⟩⟩
      | ret => exact ⟨Nat.zero_le 1, ⟨fun h => by simp at h, fun h => by simp at h⟩⟩
      | raise m => exact ⟨Nat.zero_le 1, ⟨fun h => by simp at h, fun h => by simp at h⟩⟩

/-- Claim C2 (counterexample): a top-level invocation with non-empty user
text whose first turn proposes a plan (`manage_tasks` `action="add"`): the
plan-pending `return` at line 615 exits `run_agent` before line 680, so the
user utterance is committed to memory zero times — not exactly once as the
claim states for this path. -/
theorem c2_memory_commit_cex :
    (runAgentModel
      (⟨fun _ => none, fun _ _ => false, fun _ _ => .ok (.jstr "done")⟩ : Oracles)
      "SP" (⟨[], [], [], [], [], ⟨0, none, false⟩, 0, []⟩ : AgentState) "do x"
      [.data "" [(⟨some "1", "manage_tasks",
        .jobj [("action", .jstr "add"),
               ("tasks", .jarr [.jobj [("desc", .jstr "t1"), ("status", .jstr "todo")]])]⟩ : ToolCallRec)]]).exit
      = .returned ∧
    (runAgentModel
      (⟨fun _ => none, fun _ _ => false, fun _ _ => .ok (.jstr "done")⟩ : Oracles)
      "SP" (⟨[], [], [], [], [], ⟨0, none, false⟩, 0, []⟩ : AgentState) "do x"
      [.data "" [(⟨some "1", "manage_tasks",
        .jobj [("action", .jstr "add"),
               ("tasks", .jarr [.jobj [("desc", .jstr "t1"), ("status", .jstr "todo")]])]⟩ : ToolCallRec)]]).memoryCalls
      = 0 ∧
    (0 : Nat) ≠ 1 := by
  exact ⟨rfl, rfl, by decide⟩

/-- Claim C2 (amended): for a top-level invocation with non-empty user text,
the original utterance is committed to long-term memory at most once: exactly
once when the multi-turn loop ends by a `break` path (final answer, loop
detected, question, narration limit) or by turn-limit/script exhaustion, and
zero times when it ends via the plan-pending `return` or a propagating
router/tool exception; with empty user text `run_agent` returns before doing
anything, committing nothing. -/
theorem c2_memory_commit_amended (os : Oracles) (fullSP : String) (st : AgentState)
    (text : String) (script : List TurnIn) :
    (runAgentModel os fullSP st text script).memoryCalls ≤ 1 ∧
    (¬ text = "" →
      ((runAgentModel os fullSP st text script).memoryCalls = 1 ↔
        (runAgentModel os fullSP st text script).exit = .finished)) ∧
    (text = "" → (runAgentModel os fullSP st text script).memoryCalls = 0) := by
  by_cases he : text = ""
  · refine ⟨?_, fun hne => absurd he hne, fun _ => ?_⟩
    · unfold runAgentModel
      rw [if_pos he]
      exact Nat.zero_le 1
    · unfold runAgentModel
      rw [if_pos he]
  · have hrl := runLoop_memory os script 0
      { approvalScan (agentResetPerQuery st) text with
        history := updateSystemMsg fullSP (approvalScan (agentResetPerQuery st) text).history
          ++ [.user text] }
    refine ⟨?_, fun _ => ?_, fun h0 => absurd h0 he⟩
    · unfold runAgentModel
      rw [if_neg he]
      exact hrl.1
    · unfold runAgentModel
      rw [if_neg he]
      exact hrl.2

/-- Claim C2 (witness): the amended claim evaluated concretely — an
invocation whose (empty) script ends the loop normally commits exactly once,
and an empty-text invocation commits nothing. -/
theorem c2_memory_commit_amended_witness :
    (runAgentModel
      (⟨fun _ => none, fun _ _ => false, fun _ _ => .ok (.jstr "done")⟩ : Oracles)
      "SP" (⟨[], [], [], [], [], ⟨0, none, false⟩, 0, []⟩ : AgentState) "hi" []).memoryCalls = 1 ∧
    (runAgentModel
      (⟨fun _ => none, fun _ _ => false, fun _ _ => .ok (.jstr "done")⟩ : Oracles)
      "SP" (⟨[], [], [], [], [], ⟨0, none, false⟩, 0, []⟩ : AgentState) "" []).memoryCalls = 0 := by
  constructor
  · exact ((c2_memory_commit_amended
      (⟨fun _ => none, fun _ _ => false, fun _ _ => .ok (.jstr "done")⟩ : Oracles)
      "SP" (⟨[], [], [], [], [], ⟨0, none, false⟩, 0, []⟩ : AgentState) "hi" []).2.1
      (by decide)).mpr rfl
  · exact (c2_memory_commit_amended
      (⟨fun _ => none, fun _ _ => false, fun _ _ => .ok (.jstr "done")⟩ : Oracles)
      "SP" (⟨[], [], [], [], [], ⟨0, none, false⟩, 0, []⟩ : AgentState) "" []).2.2 rfl

end GokuSpec
